import Mathlib

/-!
The callback-to-sender bridge `sender_range` of kbrdhook.

Shallow embedding of `src/kbrdhook/sender_range.hpp`, followed by the keyboard hook
adapter and the class `keyboard_hook` of `keyboard_hook.hpp`, the slot of
`clean_stop.hpp` and the consumer loop of `kbrdhook.cpp`.

* A `sender_range` object is a record of its data members together with the
  operation states (`create_sender::state`) that were created against it and a
  log of the calls made to `registerFn_` and `unregisterFn_`.
* Pointers are addresses into the list of operation states; `nullptr` is `none`.
* `unifex::atomic_intrusive_queue` is a list in FIFO order: `enqueue` adds at the
  back, `dequeue_all` takes the whole list and leaves the queue empty.
* A stop token is the Boolean its `stop_requested()` returns; a stop callback
  constructed on a token that is already stopped runs inline in its constructor.
* A receiver is the list of completion signals it was given, oldest first.
* The destructor of the registration, which `registration_.reset()` runs, is an
  argument of `_unregister`: for the keyboard hook it is `hookDestructor`.
* Two threads inside `dispatch` are interleaved at the atomic `dequeue_all()`.
* Code that ends the run abnormally yields a `Fault` with the object as it was
  at that moment.
-/

namespace SenderRange

/-- Abnormal ends of a run. -/
inductive Fault where
  /-- A call of `std::terminate()`. -/
  | terminate
  /-- A call through a `complete_function_t` that is `nullptr`. -/
  | null_call
  /-- A dereference of a `void*` that is `nullptr`. -/
  | null_deref
  /-- A dereference of an address at which no operation state lives. -/
  | invalid_pointer
  /-- A read of a data member before its initialisation. -/
  | uninitialized_read
  /-- A dereference (`operator->`) of a `std::optional` that holds no value. -/
  | empty_optional
  deriving DecidableEq, Repr

/-- Completion signals a receiver can be given: `unifex::set_value(rec, e)` and
`unifex::set_done(rec)`. -/
inductive Signal (E : Type) where
  | set_value (e : E)
  | set_done
  deriving DecidableEq, Repr

/-- Values of type `complete_function_t` other than `nullptr`: the only function
whose address the code takes is `create_sender::state::_complete_with_event`. -/
inductive complete_function_t where
  | _complete_with_event
  deriving DecidableEq, Repr

/-- The struct `sender_range::pending_operation` (lines 49-59). The link `next_` is
carried by the list that stands for the intrusive queue. -/
structure pending_operation where
  pendingOperation_ : Option Nat
  complete_with_event_ : Option complete_function_t
  deriving DecidableEq, Repr

/-- The struct `create_sender::state` (lines 116-152): the receiver `rec_` as the log of
the signals it was given, the operation token as its `stop_requested()`, and
the `pending_operation` that is linked into the queue. -/
structure create_sender.state (E : Type) where
  rec_ : List (Signal E)
  eventStopToken_ : Bool
  pending_ : pending_operation
  deriving DecidableEq, Repr

end SenderRange

/-- The class `sender_range` (lines 46-243): its data members `rangeToken_`,
`registration_` and `pendingOperations_`, the operation states created against
it (`states`, an address is an index), the arguments of the calls of
`unregisterFn_` so far and the number of calls of `registerFn_` so far. -/
structure sender_range (E R : Type) where
  rangeToken_ : Bool
  registration_ : Option R
  pendingOperations_ : List Nat
  states : List (SenderRange.create_sender.state E)
  unregisterFn_calls : List R
  registerFn_calls : Nat
  deriving DecidableEq, Repr

namespace SenderRange

/-- Outcome of running a member function: the object afterwards, or a fault
together with the object as it was when the fault happened. -/
abbrev Run (E R : Type) := Except (Fault × sender_range E R) (sender_range E R)

/-- The call `unifex::set_value(std::move(self.rec_), std::move(*event))`. -/
def set_value {E : Type} (self : create_sender.state E) (e : E) : create_sender.state E :=
  { self with rec_ := self.rec_ ++ [Signal.set_value e] }

/-- The call `unifex::set_done(std::move(self.rec_))`. -/
def set_done {E : Type} (self : create_sender.state E) : create_sender.state E :=
  { self with rec_ := self.rec_ ++ [Signal.set_done] }

/-- The function `create_sender::state::_complete_with_event` (lines 117-125): a non-null
event completes the receiver with `set_value`, a null event with `set_done`. -/
def _complete_with_event {E R : Type} (w : sender_range E R) (selfVoid : Option Nat)
    (event : Option E) : Run E R :=
  match selfVoid with
  | none => .error (Fault.null_deref, w)
  | some a =>
    match w.states[a]? with
    | none => .error (Fault.invalid_pointer, w)
    | some self =>
      match event with
      | some e => .ok { w with states := w.states.set a (set_value self e) }
      | none => .ok { w with states := w.states.set a (set_done self) }

/-- The call operator `pending_operation::operator()` (lines 53-56) on the pending
operation of the state at address `p`: both members are exchanged with `nullptr`,
then the function that was in `complete_with_event_` is called, with no test that
it is not `nullptr`. -/
def pending_operation.operator_call {E R : Type} (w : sender_range E R) (p : Nat)
    (e : Option E) : Run E R :=
  match w.states[p]? with
  | none => .error (Fault.invalid_pointer, w)
  | some st =>
    let fn := st.pending_.complete_with_event_
    let selfVoid := st.pending_.pendingOperation_
    let w1 := { w with states := w.states.set p { st with pending_ := ⟨none, none⟩ } }
    match fn with
    | none => .error (Fault.null_call, w1)
    | some complete_function_t._complete_with_event => _complete_with_event w1 selfVoid e

/-- The member function `sender_range::dispatch` (lines 71-87). -/
def dispatch {E R : Type} (w : sender_range E R) (event : Option E) : Run E R :=
  let pending := w.pendingOperations_
  let w1 := { w with pendingOperations_ := [] }
  match pending with
  | [] => .ok w1
  | complete :: rest =>
    if !rest.isEmpty then .error (Fault.terminate, w1)
    else pending_operation.operator_call w1 complete event

/-- The member function `sender_range::stop_pending` (line 89). -/
def stop_pending {E R : Type} (w : sender_range E R) : Run E R :=
  dispatch w none

/-- The call operator `event_function::operator()` (lines 94-97), the emitter handed to
`registerFn_`. -/
def event_function {E R : Type} (w : sender_range E R) (event : E) : Run E R :=
  dispatch w (some event)

/-- The member function `sender_range::start` (lines 61-69) for the state at address `st`. -/
def start {E R : Type} (w : sender_range E R) (st : Nat) : Run E R :=
  match w.states[st]? with
  | none => .error (Fault.invalid_pointer, w)
  | some s =>
    if w.rangeToken_ || s.eventStopToken_ then
      .ok { w with states := w.states.set st (set_done s) }
    else
      .ok { w with pendingOperations_ := w.pendingOperations_ ++ [st] }

/-- The call operator `create_sender::state::stop_callback::operator()` (line 139). -/
def create_sender.state.stop_callback {E R : Type} (w : sender_range E R) : Run E R :=
  stop_pending w

/-- The constructor of `create_sender::state` (lines 143-150), which is what starting a
`next()` sender runs: the new state gets the next free address, `pending_` is
`{this, &_complete_with_event}`, `callback_` is constructed on the operation
token (and runs `stop_callback` inline when that token is already stopped),
and the body calls `range_->start(this)`. -/
def create_sender.state.construct {E R : Type} (w : sender_range E R)
    (eventStopToken : Bool) : Run E R :=
  let this := w.states.length
  let w1 := { w with states := w.states ++
    [⟨[], eventStopToken, ⟨some this, some complete_function_t._complete_with_event⟩⟩] }
  match (if eventStopToken then create_sender.state.stop_callback w1 else .ok w1) with
  | .error f => .error f
  | .ok w2 => start w2 this

/-- The member function `sender_range::_unregister` (lines 207-213). The argument `dtor`
tells how the destructor of `registration_t` ends on the value that the optional
holds, `none` when it returns and `some f` when it ends in the fault `f`:
`registration_.reset()` (line 210) runs that destructor after `unregisterFn_` was
called and before `stop_pending()`. -/
def _unregister {E R : Type} (dtor : R → Option Fault) (w : sender_range E R) : Run E R :=
  match w.registration_ with
  | some r =>
    match dtor r with
    | some f => .error (f, { w with unregisterFn_calls := w.unregisterFn_calls ++ [r] })
    | none =>
      stop_pending { w with unregisterFn_calls := w.unregisterFn_calls ++ [r],
                            registration_ := none }
  | none => .ok w

/-- The call operator `sender_range::stop_callback::operator()` (line 172). -/
def stop_callback {E R : Type} (dtor : R → Option Fault) (w : sender_range E R) : Run E R :=
  _unregister dtor w

/-- The call `request_stop()` on the stop source behind `rangeToken_`
(`keyboard_hook::request_stop`, keyboard_hook.hpp line 150): the first request
marks the source stopped and runs the callback `callback_` registered on it,
later requests do nothing. -/
def request_stop {E R : Type} (dtor : R → Option Fault) (w : sender_range E R) : Run E R :=
  if w.rangeToken_ then .ok w else stop_callback dtor { w with rangeToken_ := true }

/-- The constructor of `sender_range` (lines 216-225). Members are initialised in the
order of their declaration, so `callback_` (line 191) is constructed before
`registration_` (line 193): on a token that is already stopped the callback runs
`_unregister` inline and reads `registration_` before its initialisation.
Otherwise `registration_` receives the result `reg` of the one call of
`registerFn_` and the queue starts empty. -/
def construct {E R : Type} (token : Bool) (reg : R) : Except Fault (sender_range E R) :=
  if token then .error Fault.uninitialized_read
  else .ok ⟨false, some reg, [], [], [], 1⟩

/-- The destructor `~sender_range` (line 227). -/
def destruct {E R : Type} (dtor : R → Option Fault) (w : sender_range E R) : Run E R :=
  _unregister dtor w

/-- Run `f` on the outcome of an earlier step; a fault ends the run. -/
def andThen {E R : Type} (r : Run E R) (f : sender_range E R → Run E R) : Run E R :=
  match r with
  | .error x => .error x
  | .ok w => f w

/-- Call `_unregister` `n` times in a row. -/
def unregisterTimes {E R : Type} (dtor : R → Option Fault) : Nat → sender_range E R → Run E R
  | 0, w => .ok w
  | n + 1, w => andThen (_unregister dtor w) (unregisterTimes dtor n)

/-- Call the emitter once for each event of the list, in order. -/
def dispatchAll {E R : Type} : List E → sender_range E R → Run E R
  | [], w => .ok w
  | e :: es, w => andThen (event_function w e) (dispatchAll es)

/-- The pending operation of the state at address `a` as its constructor leaves it:
`{this, &_complete_with_event}`. -/
def armed (a : Nat) : pending_operation :=
  ⟨some a, some complete_function_t._complete_with_event⟩

/-- The pending operation after `operator()` ran on it: both members `nullptr`. -/
def consumed : pending_operation :=
  ⟨none, none⟩

/-- The signals given so far to the receiver of the state at address `a` (none when no
state lives there). -/
def recOf {E R : Type} (w : sender_range E R) (a : Nat) : List (Signal E) :=
  match w.states[a]? with
  | some st => st.rec_
  | none => []

/-- Every operation state created so far has completed: its receiver was given a signal. -/
def allCompleted {E R : Type} (w : sender_range E R) : Bool :=
  w.states.all (fun st => !st.rec_.isEmpty)

/-- Calls made on the object by its users: the consumer starts a `next()` sender whose own
token is not stopped, the producer calls the emitter with an event. -/
inductive Action (E : Type) where
  | next
  | dispatch (e : E)
  deriving DecidableEq, Repr

/-- One call on the object. -/
def step {E R : Type} (w : sender_range E R) : Action E → Run E R
  | Action.next => create_sender.state.construct w false
  | Action.dispatch e => event_function w e

/-- A sequence of calls, in order. -/
def run {E R : Type} : List (Action E) → sender_range E R → Run E R
  | [], w => .ok w
  | a :: rest, w => andThen (step w a) (run rest)

/-- The schedule starts each `next()` only when every earlier operation has completed. -/
def nonOverlapping {E R : Type} : sender_range E R → List (Action E) → Bool
  | _, [] => true
  | w, a :: rest =>
    (match a with
      | Action.next => allCompleted w
      | Action.dispatch _ => true) &&
    (match step w a with
      | .ok w1 => nonOverlapping w1 rest
      | .error _ => true)

/-- The dispatch calls of the schedule that executed while a wait was pending, each with
the address of the wait at the front of the queue and the event dispatched. -/
def found {E R : Type} : sender_range E R → List (Action E) → List (Nat × E)
  | _, [] => []
  | w, a :: rest =>
    (match a, w.pendingOperations_ with
      | Action.dispatch e, p :: _ => [(p, e)]
      | _, _ => []) ++
    (match step w a with
      | .ok w1 => found w1 rest
      | .error _ => [])

/-- The signal is a `set_value`. -/
def Signal.isValue {E : Type} : Signal E → Bool
  | Signal.set_value _ => true
  | Signal.set_done => false

/-- Number of `set_value` completions given to the receivers of all operation states. -/
def valueCount {E R : Type} (w : sender_range E R) : Nat :=
  (w.states.map (fun st => st.rec_.countP Signal.isValue)).sum

/-- The call is a dispatch. -/
def Action.isDispatch {E : Type} : Action E → Bool
  | Action.dispatch _ => true
  | Action.next => false

/-- Number of dispatch calls in a schedule. -/
def dispatchCount {E : Type} (acts : List (Action E)) : Nat :=
  acts.countP Action.isDispatch

/-- States of the object reachable after construction on a token that is not stopped,
by `next()` starts that do not overlap (with the operation token stopped or not),
calls of the emitter, firings of the stop callback of an operation
(`stop_pending`) and `request_stop()` on the stop source of the range that
return, however the destructor of the registration ends. -/
inductive Reachable {E R : Type} : sender_range E R → Prop where
  | construct (reg : R) (w : sender_range E R) :
      construct false reg = .ok w → Reachable w
  | next (w w1 : sender_range E R) (tok : Bool) :
      Reachable w → allCompleted w = true →
      create_sender.state.construct w tok = .ok w1 → Reachable w1
  | dispatch (w w1 : sender_range E R) (e : E) :
      Reachable w → event_function w e = .ok w1 → Reachable w1
  | stop_pending (w w1 : sender_range E R) :
      Reachable w → create_sender.state.stop_callback w = .ok w1 → Reachable w1
  | request_stop (dtor : R → Option Fault) (w w1 : sender_range E R) :
      Reachable w → request_stop dtor w = .ok w1 → Reachable w1

/-- Well-formedness of the waits: at most one wait is queued, a queued wait is armed and
its receiver was given nothing yet, and no receiver was given more than one
signal. -/
structure WaitInv {E R : Type} (w : sender_range E R) : Prop where
  queue_le : w.pendingOperations_.length ≤ 1
  queued : ∀ a ∈ w.pendingOperations_,
    ∃ st, w.states[a]? = some st ∧ st.pending_ = armed a ∧ st.rec_ = []
  once : ∀ st ∈ w.states, st.rec_.length ≤ 1

/-- Well-formedness of the object: the waits are well formed, `registerFn_` was called
once, `unregisterFn_` was called once exactly when the registration is gone, the
registration is gone exactly when the token of the range is stopped, and then no
wait is queued. -/
structure Inv {E R : Type} (w : sender_range E R) : Prop where
  waits : WaitInv w
  registered : w.registerFn_calls = 1
  unregistered : w.unregisterFn_calls.length = (if w.registration_.isSome then 0 else 1)
  stopped_iff : w.rangeToken_ = true ↔ w.registration_ = none
  drained : w.registration_ = none → w.pendingOperations_ = []

/-- The signal that a completion with the event pointer `ev` gives the receiver:
`set_value` for a non-null event, `set_done` for `nullptr`. -/
def signalOf {E : Type} : Option E → Signal E
  | some e => Signal.set_value e
  | none => Signal.set_done

/-- A bridge right after construction on a token that is not stopped, with events of
type `Nat` and registration `7`. -/
def fresh : sender_range Nat Nat :=
  ⟨false, some 7, [], [], [], 1⟩

/-- The bridge `fresh` after one `next()` was started: one wait pending at address 0. -/
def waiting : sender_range Nat Nat :=
  ⟨false, some 7, [0], [⟨[], false, armed 0⟩], [], 1⟩

/-- The bridge `waiting` after a second `next()` was started while the first is still pending. -/
def overlapping : sender_range Nat Nat :=
  ⟨false, some 7, [0, 1], [⟨[], false, armed 0⟩, ⟨[], false, armed 1⟩], [], 1⟩

/-- A schedule on the bridge `fresh`: a wait, two events, a second wait, a third event. -/
def schedule : List (Action Nat) :=
  [Action.next, Action.dispatch 42, Action.dispatch 5, Action.next, Action.dispatch 9]

/-! ## The keyboard hook adapter (keyboard_hook.hpp) -/

/-- The message number `WM_KEYDOWN` of winuser.h. -/
def WM_KEYDOWN : Nat := 0x0100

/-- The message number `WM_SYSKEYDOWN` of winuser.h. -/
def WM_SYSKEYDOWN : Nat := 0x0104

/-- The struct `_keyboard_hook` (keyboard_hook.hpp lines 35-113): its data member `hHook_`,
`none` for `NULL`. The member `fn_` is a reference to the emitter; the calls made
through it are logged in the process. -/
structure _keyboard_hook where
  hHook_ : Option Nat
  deriving DecidableEq, Repr

/-- The process as the keyboard hook sees it: the static member `self_` (line 43, `none`
for `nullptr`, otherwise the address of an instance), the instances of
`_keyboard_hook` (an address is an index) and the calls `self->fn_(wParam)` made
so far, each with the instance and the argument. -/
structure HookProcess where
  self_ : Option Nat
  hooks : List _keyboard_hook
  fn_calls : List (Nat × Nat)
  deriving DecidableEq, Repr

/-- Outcome of running a function of the hook: the process afterwards, or a fault with the
process as it was then. -/
abbrev HookRun := Except (Fault × HookProcess) HookProcess

/-- The body of `_keyboard_hook::start` (lines 58-83) on the instance at address `this`;
`hook` is what `SetWindowsHookExW` returns. -/
def _keyboard_hook.start (p : HookProcess) (this : Nat) (hook : Option Nat) : HookRun :=
  if p.self_.isSome then .error (Fault.terminate, p)
  else
    let p1 := { p with self_ := some this, hooks := p.hooks.set this ⟨hook⟩ }
    if hook.isNone then .error (Fault.terminate, p1) else .ok p1

/-- The body of `_keyboard_hook::destroy` (lines 88-100) on the instance at address `this`;
`unhooked` is what `UnhookWindowsHookEx` returns. -/
def _keyboard_hook.destroy (p : HookProcess) (this : Nat) (unhooked : Bool) : HookRun :=
  let p1 := { p with hooks := p.hooks.set this ⟨none⟩ }
  if !unhooked then .error (Fault.terminate, p1)
  else if p1.self_ = some this then .ok { p1 with self_ := none }
  else .error (Fault.terminate, p1)

/-- The static function `_keyboard_hook::KbdHookProc` (lines 103-112): the emitter of the
instance in `self_` is called for a key-down notification with `nCode >= 0`. -/
def _keyboard_hook.KbdHookProc (p : HookProcess) (nCode : Int) (wParam : Nat) : HookProcess :=
  match p.self_ with
  | some self =>
    if 0 ≤ nCode ∧ (wParam = WM_KEYDOWN ∨ wParam = WM_SYSKEYDOWN) then
      { p with fn_calls := p.fn_calls ++ [(self, wParam)] }
    else p
  | none => p

/-- The destructor `~_keyboard_hook` (lines 45-50) of the instance at address `this`. -/
def _keyboard_hook.destruct (p : HookProcess) (this : Nat) : HookRun :=
  match p.hooks[this]? with
  | none => .error (Fault.invalid_pointer, p)
  | some h => if h.hHook_.isSome then .error (Fault.terminate, p) else .ok p

/-- The lambda `register_` of `detail::keyboard_events` (lines 120-122): a new instance
with `hHook_` `NULL`; the result is the process and the address of the instance. -/
def keyboard_events.register_ (p : HookProcess) : HookProcess × Nat :=
  ({ p with hooks := p.hooks ++ [⟨none⟩] }, p.hooks.length)

/-- The lambda `unregister_` of `detail::keyboard_events` (lines 123-125): its body is
empty. -/
def keyboard_events.unregister_ (p : HookProcess) (_r : Nat) : HookProcess :=
  p

/-- A process in which no hook was ever created. -/
def noHooks : HookProcess :=
  ⟨none, [], []⟩

/-- The process `noHooks` after `register_` and a successful `start` of the instance at
address 0 with hook handle 5. -/
def hooked : HookProcess :=
  ⟨some 0, [⟨some 5⟩], []⟩

/-! ## The class keyboard_hook (keyboard_hook.hpp lines 129-156) -/

/-- The class `keyboard_hook`: its member `range_`, whose registration is the address of the
`_keyboard_hook` instance that the optional holds, and the process. The member
`stopSource_` is the stop source behind `range_.rangeToken_`. -/
structure keyboard_hook where
  range_ : sender_range Nat Nat
  process : HookProcess
  deriving DecidableEq, Repr

/-- Outcome of running a member function of `keyboard_hook`. -/
abbrev KRun := Except (Fault × keyboard_hook) keyboard_hook

/-- Put the outcome of a member function of `range_` back into the object. -/
def keyboard_hook.withRange (k : keyboard_hook) (r : Run Nat Nat) : KRun :=
  match r with
  | .ok w => .ok { k with range_ := w }
  | .error (f, w) => .error (f, { k with range_ := w })

/-- Put the outcome of a function of the hook back into the object. -/
def keyboard_hook.withProcess (k : keyboard_hook) (r : HookRun) : KRun :=
  match r with
  | .ok p => .ok { k with process := p }
  | .error (f, p) => .error (f, { k with process := p })

/-- The constructor of `keyboard_hook` (lines 143-147): `range_` is constructed on the token
of the fresh `stopSource_` with the pair of `detail::keyboard_events`. -/
def keyboard_hook.construct (p : HookProcess) : Except Fault keyboard_hook :=
  match (SenderRange.construct false (keyboard_events.register_ p).2 :
      Except Fault (sender_range Nat Nat)) with
  | .ok w => .ok ⟨w, (keyboard_events.register_ p).1⟩
  | .error f => .error f

/-- The member function `keyboard_hook::start` (line 152):
`range_.get_registration()->start()`. -/
def keyboard_hook.start (k : keyboard_hook) (hook : Option Nat) : KRun :=
  match k.range_.registration_ with
  | none => .error (Fault.empty_optional, k)
  | some this => k.withProcess (_keyboard_hook.start k.process this hook)

/-- The member function `keyboard_hook::destroy` (line 153):
`range_.get_registration()->destroy()`. -/
def keyboard_hook.destroy (k : keyboard_hook) (unhooked : Bool) : KRun :=
  match k.range_.registration_ with
  | none => .error (Fault.empty_optional, k)
  | some this => k.withProcess (_keyboard_hook.destroy k.process this unhooked)

/-- The member function `sender_range::_unregister` (sender_range.hpp lines 207-213) with
`registration_t` being `_keyboard_hook`: `unregisterFn_` is `unregister_`, and
`registration_.reset()` runs `~_keyboard_hook` on the instance the optional held. -/
def keyboard_hook._unregister (k : keyboard_hook) : KRun :=
  match k.range_.registration_ with
  | some r =>
    let k1 : keyboard_hook :=
      ⟨{ k.range_ with unregisterFn_calls := k.range_.unregisterFn_calls ++ [r] },
        keyboard_events.unregister_ k.process r⟩
    match _keyboard_hook.destruct k1.process r with
    | .error (f, p) => .error (f, { k1 with process := p })
    | .ok p =>
      keyboard_hook.withRange { k1 with process := p }
        (stop_pending { k1.range_ with registration_ := none })
  | none => .ok k

/-- The member function `keyboard_hook::request_stop` (line 150): the first request marks
`stopSource_` stopped and runs the callback of `range_`, which is `_unregister`. -/
def keyboard_hook.request_stop (k : keyboard_hook) : KRun :=
  if k.range_.rangeToken_ then .ok k
  else keyboard_hook._unregister { k with range_ := { k.range_ with rangeToken_ := true } }

/-- Run `f` on the outcome of an earlier step of `keyboard_hook`; a fault ends the run. -/
def keyboard_hook.andThen (r : KRun) (f : keyboard_hook → KRun) : KRun :=
  match r with
  | .error x => .error x
  | .ok k => f k

/-- How `~_keyboard_hook` ends on the instance at address `this` in the process `p`: the
argument `dtor` of `_unregister` when `registration_t` is `_keyboard_hook`. -/
def hookDestructor (p : HookProcess) (this : Nat) : Option Fault :=
  match _keyboard_hook.destruct p this with
  | .error (f, _) => some f
  | .ok _ => none

/-- Starting a `next()` sender taken from `keyboard_hook::events()` (line 155), which is
the view of `range_`. -/
def keyboard_hook.next (k : keyboard_hook) (eventStopToken : Bool) : KRun :=
  k.withRange (create_sender.state.construct k.range_ eventStopToken)

/-- The object a `keyboard_hook` constructor gives in a process without hooks. -/
def freshKeyboard : keyboard_hook :=
  ⟨⟨false, some 0, [], [], [], 1⟩, ⟨none, [⟨none⟩], []⟩⟩

/-- The object `freshKeyboard` after `start()` installed the hook with handle 5 and one
`next()` was started: one wait pending at address 0. -/
def startedWaiting : keyboard_hook :=
  ⟨⟨false, some 0, [0], [⟨[], false, armed 0⟩], [], 1⟩, hooked⟩

/-! ## The struct clean_stop (clean_stop.hpp) -/

/-- The process as `clean_stop` sees it: the static member `stop_` (line 37), `none` for
`nullptr`, otherwise the address of the `stopSource_` of an instance. -/
structure StopProcess where
  stop_ : Option Nat
  deriving DecidableEq, Repr

/-- Outcome of running a function of `clean_stop`. -/
abbrev StopRun := Except (Fault × StopProcess) StopProcess

/-- The body of `clean_stop::start` (lines 44-51) on the instance whose `stopSource_` has
address `this`; `handlerSet` is what `SetConsoleCtrlHandler(.., TRUE)` returns. -/
def clean_stop.start (p : StopProcess) (this : Nat) (handlerSet : Bool) : StopRun :=
  let p1 : StopProcess := { p with stop_ := some this }
  if p.stop_.isSome then .error (Fault.terminate, p1)
  else if !handlerSet then .error (Fault.terminate, p1)
  else .ok p1

/-- The body of `clean_stop::destroy` (lines 55-62); `handlerCleared` is what
`SetConsoleCtrlHandler(.., FALSE)` returns. -/
def clean_stop.destroy (p : StopProcess) (handlerCleared : Bool) : StopRun :=
  if !handlerCleared then .error (Fault.terminate, p)
  else
    let p1 : StopProcess := { p with stop_ := none }
    if p.stop_.isNone then .error (Fault.terminate, p1) else .ok p1

/-! ## Sequences of starts and destroys on the two process-wide slots -/

/-- A call on the slot `self_`: `start` or `destroy` of the instance at `this`, with what
the operating system answers. -/
inductive HookOp where
  | start (this : Nat) (hook : Option Nat)
  | destroy (this : Nat) (unhooked : Bool)
  deriving DecidableEq, Repr

/-- A call on the slot `stop_`: `start` or `destroy` of an instance, with what the
operating system answers. -/
inductive StopOp where
  | start (this : Nat) (handlerSet : Bool)
  | destroy (handlerCleared : Bool)
  deriving DecidableEq, Repr

/-- The call is a start. -/
def HookOp.isStart : HookOp → Bool
  | HookOp.start _ _ => true
  | HookOp.destroy _ _ => false

/-- The call is a start. -/
def StopOp.isStart : StopOp → Bool
  | StopOp.start _ _ => true
  | StopOp.destroy _ => false

/-- Run the calls on `self_` in order; a fault ends the run. -/
def runHookOps : List HookOp → HookProcess → HookRun
  | [], p => .ok p
  | HookOp.start this hook :: rest, p =>
    match _keyboard_hook.start p this hook with
    | .error x => .error x
    | .ok p1 => runHookOps rest p1
  | HookOp.destroy this unhooked :: rest, p =>
    match _keyboard_hook.destroy p this unhooked with
    | .error x => .error x
    | .ok p1 => runHookOps rest p1

/-- Run the calls on `stop_` in order; a fault ends the run. -/
def runStopOps : List StopOp → StopProcess → StopRun
  | [], p => .ok p
  | StopOp.start this handlerSet :: rest, p =>
    match clean_stop.start p this handlerSet with
    | .error x => .error x
    | .ok p1 => runStopOps rest p1
  | StopOp.destroy handlerCleared :: rest, p =>
    match clean_stop.destroy p handlerCleared with
    | .error x => .error x
    | .ok p1 => runStopOps rest p1

/-- Starts and destroys strictly alternate: given whether the slot is occupied, each start
comes on an empty slot and each destroy on an occupied one (`true` is a start). -/
def alternates : Bool → List Bool → Bool
  | _, [] => true
  | occupied, isStart :: rest => (isStart != occupied) && alternates isStart rest

/-- Every start comes on an empty slot `self_` and every destroy is made by the instance
that holds the slot, given the holder before the calls. -/
def matched : Option Nat → List HookOp → Bool
  | _, [] => true
  | holder, HookOp.start this _ :: rest => holder.isNone && matched (some this) rest
  | holder, HookOp.destroy this _ :: rest => (holder == some this) && matched none rest

/-! ## The consumer loop (kbrdhook.cpp) -/

/-- What the coroutine `clickety` has done so far: the number of `next()` senders it took
from `keyboard.events()` and awaited, the number of calls of `player.Click()`,
and whether it reached `co_return`. -/
structure Consumer where
  started : Nat
  clicks : Nat
  returned : Bool
  deriving DecidableEq, Repr

/-- The coroutine `clickety` (kbrdhook.cpp lines 40-50) run against the outcomes that the
successive `next()` operations deliver, `some e` for a value and `none` for done
(which `done_as_optional` turns into an empty optional). The range of senders
never ends (`std::views::iota(0)`, sender_range.hpp line 178), so when the
outcomes run out the loop is suspended in the `co_await` of the sender it has
just taken. -/
def clickety {E : Type} : List (Option E) → Consumer → Consumer
  | [], c => { c with started := c.started + 1 }
  | none :: _, c => { c with started := c.started + 1, returned := true }
  | some _ :: rest, c =>
    clickety rest { c with started := c.started + 1, clicks := c.clicks + 1 }

/-- A process with two instances of `_keyboard_hook`, none started. -/
def twoHooks : HookProcess :=
  ⟨none, [⟨none⟩, ⟨none⟩], []⟩

/-- Calls on `self_` that run without fault: instance 0 starts and is destroyed, then
instance 1 starts. -/
def hookOps : List HookOp :=
  [HookOp.start 0 (some 5), HookOp.destroy 0 true, HookOp.start 1 (some 6)]

/-- Calls on `stop_` that run without fault: a start, a destroy, a start. -/
def stopOps : List StopOp :=
  [StopOp.start 0 true, StopOp.destroy true, StopOp.start 1 true]

/-! ## Two threads inside `dispatch` -/

/-- A thread that runs `sender_range::dispatch(event)` (lines 71-87): it has entered the
function, or it has taken the queue with `dequeue_all()` (line 72, the one access
to state that threads share) and holds it in its local `pending`, or it has
returned. -/
inductive DispatchThread (E : Type) where
  | entered (event : Option E)
  | dequeued (pending : List Nat) (event : Option E)
  | returned
  deriving DecidableEq, Repr

/-- One step of a thread in `dispatch`: `dequeue_all()` (line 72) is one atomic step, the
rest of the body (lines 74-86), which works on the local `pending` only, is the
second. A thread that has returned stays as it is. -/
def DispatchThread.step {E R : Type} (w : sender_range E R) :
    DispatchThread E → Except (Fault × sender_range E R) (sender_range E R × DispatchThread E)
  | DispatchThread.entered event =>
    .ok ({ w with pendingOperations_ := [] }, DispatchThread.dequeued w.pendingOperations_ event)
  | DispatchThread.dequeued pending event =>
    match pending with
    | [] => .ok (w, DispatchThread.returned)
    | complete :: rest =>
      if !rest.isEmpty then .error (Fault.terminate, w)
      else
        match pending_operation.operator_call w complete event with
        | .ok w1 => .ok (w1, DispatchThread.returned)
        | .error x => .error x
  | DispatchThread.returned => .ok (w, DispatchThread.returned)

/-- A producer thread and a cancelling thread on one bridge. -/
structure Race (E R : Type) where
  shared : sender_range E R
  producer : DispatchThread E
  canceller : DispatchThread E

/-- The race of a producer that calls `dispatch(&e)` against a canceller whose stop
callback calls `stop_pending()`, which is `dispatch(nullptr)` (line 89). -/
def Race.start {E R : Type} (w : sender_range E R) (e : E) : Race E R :=
  ⟨w, DispatchThread.entered (some e), DispatchThread.entered none⟩

/-- One step of the race: the producer moves when `producerMoves`, else the canceller. -/
def Race.step {E R : Type} (c : Race E R) (producerMoves : Bool) :
    Except (Fault × sender_range E R) (Race E R) :=
  if producerMoves then
    match DispatchThread.step c.shared c.producer with
    | .ok (w, t) => .ok { c with shared := w, producer := t }
    | .error x => .error x
  else
    match DispatchThread.step c.shared c.canceller with
    | .ok (w, t) => .ok { c with shared := w, canceller := t }
    | .error x => .error x

/-- Run the race under a schedule, which names the thread that moves at each step. -/
def Race.run {E R : Type} : List Bool → Race E R → Except (Fault × sender_range E R) (Race E R)
  | [], c => .ok c
  | b :: rest, c =>
    match Race.step c b with
    | .ok c1 => Race.run rest c1
    | .error x => .error x

theorem getElem?_lt_of_some {α : Type} (l : List α) (a : Nat) (x : α)
    (h : l[a]? = some x) : a < l.length := by
  by_contra hc
  rw [List.getElem?_eq_none (Nat.le_of_not_lt hc)] at h
  cases h

theorem dispatch_nil {E R : Type} (w : sender_range E R) (ev : Option E)
    (hq : w.pendingOperations_ = []) : dispatch w ev = .ok w := by
  cases w
  simp only at hq
  subst hq
  rfl

theorem dispatch_one {E R : Type} (w : sender_range E R) (a : Nat)
    (st : create_sender.state E) (ev : Option E)
    (hq : w.pendingOperations_ = [a]) (hs : w.states[a]? = some st)
    (hp : st.pending_ = armed a) :
    dispatch w ev = .ok { w with
      pendingOperations_ := []
      states := w.states.set a ⟨st.rec_ ++ [signalOf ev], st.eventStopToken_, consumed⟩ } := by
  have hlt : a < w.states.length := getElem?_lt_of_some _ _ _ hs
  cases ev <;>
  simp [dispatch, hq, pending_operation.operator_call, hs, hp, armed, _complete_with_event,
      List.getElem?_set, hlt, set_value, set_done, signalOf, consumed]

theorem dispatch_many {E R : Type} (w : sender_range E R) (ev : Option E)
    (hq : 2 ≤ w.pendingOperations_.length) :
    dispatch w ev = .error (Fault.terminate, { w with pendingOperations_ := [] }) := by
  cases hw : w.pendingOperations_ with
  | nil => simp [hw] at hq
  | cons a rest =>
    cases rest with
    | nil => simp [hw] at hq
    | cons b more => simp [dispatch, hw]

theorem construct_state_eq {E R : Type} (w : sender_range E R) (tok : Bool)
    (hq : w.pendingOperations_ = []) :
    create_sender.state.construct w tok = .ok
      (if w.rangeToken_ || tok then
        { w with states := w.states ++ [⟨[Signal.set_done], tok, armed w.states.length⟩] }
      else
        { w with
          pendingOperations_ := [w.states.length]
          states := w.states ++ [⟨[], tok, armed w.states.length⟩] }) := by
  cases w with
  | mk rt rg q sts ul rc =>
    simp only at hq
    subst hq
    cases tok <;> cases rt <;>
    simp [create_sender.state.construct, create_sender.state.stop_callback, stop_pending,
      dispatch, start, set_done, armed]

/-! ## C1 -/

/-- C1: with exactly one wait pending (the armed pending operation of the state at
address `a` is the only entry of `pendingOperations_`), the emitter called with
event `e` returns normally, gives the receiver of that wait the one signal
`set_value e` and no `set_done`, consumes the pending operation, leaves every
other operation state and every other member as it was, and leaves no wait
pending. -/
theorem dispatch_completes_single_wait {E R : Type} (w : sender_range E R) (a : Nat)
    (st : create_sender.state E) (e : E)
    (hq : w.pendingOperations_ = [a]) (hs : w.states[a]? = some st)
    (hp : st.pending_ = armed a) :
    ∃ w1, event_function w e = .ok w1 ∧
      w1 = { w with
        pendingOperations_ := []
        states := w.states.set a ⟨st.rec_ ++ [Signal.set_value e], st.eventStopToken_, consumed⟩ } ∧
      w1.pendingOperations_ = [] ∧
      recOf w1 a = recOf w a ++ [Signal.set_value e] ∧
      (∀ b, b ≠ a → w1.states[b]? = w.states[b]?) := by
  have hlt : a < w.states.length := getElem?_lt_of_some _ _ _ hs
  refine ⟨_, dispatch_one w a st (some e) hq hs hp, rfl, rfl, ?_, ?_⟩
  · simp [recOf, hs, hlt, List.getElem?_set, signalOf]
  · intro b hb
    simp [List.getElem?_set, Ne.symm hb]

/-- Witness for C1 on the bridge `waiting`: the event 42 completes the wait at address 0. -/
theorem dispatch_completes_single_wait_witness :
    ∃ w1, event_function waiting 42 = .ok w1 ∧
      w1 = { waiting with
        pendingOperations_ := []
        states := waiting.states.set 0 ⟨[] ++ [Signal.set_value 42], false, consumed⟩ } ∧
      w1.pendingOperations_ = [] ∧
      recOf w1 0 = recOf waiting 0 ++ [Signal.set_value 42] ∧
      (∀ b, b ≠ 0 → w1.states[b]? = waiting.states[b]?) :=
  dispatch_completes_single_wait waiting 0 ⟨[], false, armed 0⟩ 42 rfl rfl rfl

/-! ## C2 -/

/-- C2: starting a `next()` operation on a bridge with no wait pending returns normally.
When `rangeToken_` or the token of the operation reports a stop, the receiver of
the new operation is given exactly the one signal `set_done` and the queue stays
empty; otherwise the new operation is the only entry of `pendingOperations_` and
its receiver was given nothing. Nothing else changes. -/
theorem start_of_next {E R : Type} (w : sender_range E R) (tok : Bool)
    (hq : w.pendingOperations_ = []) :
    ∃ w1, create_sender.state.construct w tok = .ok w1 ∧
      (if w.rangeToken_ = true ∨ tok = true then
        w1 = { w with
          states := w.states ++ [⟨[Signal.set_done], tok, armed w.states.length⟩] } ∧
        recOf w1 w.states.length = [Signal.set_done] ∧ w1.pendingOperations_ = []
      else
        w1 = { w with
          pendingOperations_ := [w.states.length]
          states := w.states ++ [⟨[], tok, armed w.states.length⟩] } ∧
        recOf w1 w.states.length = [] ∧ w1.pendingOperations_ = [w.states.length]) := by
  refine ⟨_, construct_state_eq w tok hq, ?_⟩
  cases hrt : w.rangeToken_ <;> cases tok <;> simp [recOf, hq]

/-- Witness for C2 on the bridge `fresh` with an operation token that is not stopped. -/
theorem start_of_next_witness :
    ∃ w1, create_sender.state.construct fresh false = .ok w1 ∧
      (if fresh.rangeToken_ = true ∨ false = true then
        w1 = { fresh with
          states := fresh.states ++ [⟨[Signal.set_done], false, armed fresh.states.length⟩] } ∧
        recOf w1 fresh.states.length = [Signal.set_done] ∧ w1.pendingOperations_ = []
      else
        w1 = { fresh with
          pendingOperations_ := [fresh.states.length]
          states := fresh.states ++ [⟨[], false, armed fresh.states.length⟩] } ∧
        recOf w1 fresh.states.length = [] ∧ w1.pendingOperations_ = [fresh.states.length]) :=
  start_of_next fresh false rfl

/-! ## Well-formedness is kept by every operation -/

theorem recOf_set {E R : Type} (w : sender_range E R) (a b : Nat)
    (x : create_sender.state E) (hlt : a < w.states.length) :
    recOf { w with states := w.states.set a x } b = if b = a then x.rec_ else recOf w b := by
  by_cases hb : b = a
  · subst hb
    simp [recOf, hlt, List.getElem?_set]
  · simp [recOf, hb, List.getElem?_set, Ne.symm hb]

theorem dispatch_waitInv {E R : Type} (w : sender_range E R) (ev : Option E)
    (hi : WaitInv w) :
    ∃ w1, dispatch w ev = .ok w1 ∧ WaitInv w1 ∧ w1.pendingOperations_ = [] ∧
      w1.rangeToken_ = w.rangeToken_ ∧ w1.registration_ = w.registration_ ∧
      w1.unregisterFn_calls = w.unregisterFn_calls ∧
      w1.registerFn_calls = w.registerFn_calls ∧
      w1.states.length = w.states.length ∧
      (∀ a, recOf w1 a = if a ∈ w.pendingOperations_ then [signalOf ev] else recOf w a) ∧
      (∀ a, a ∉ w.pendingOperations_ → w1.states[a]? = w.states[a]?) := by
  cases hq : w.pendingOperations_ with
  | nil =>
    refine ⟨w, dispatch_nil w ev hq, hi, hq, rfl, rfl, rfl, rfl, rfl, ?_, ?_⟩
    · intro a
      simp
    · intro a _
      rfl
  | cons a rest =>
    have hlen := hi.queue_le
    rw [hq] at hlen
    have hrest : rest = [] := by
      cases rest with
      | nil => rfl
      | cons b more => simp at hlen
    subst hrest
    obtain ⟨st, hs, hp, hr⟩ := hi.queued a (by simp [hq])
    have hlt : a < w.states.length := getElem?_lt_of_some _ _ _ hs
    refine ⟨_, dispatch_one w a st ev hq hs hp, ?_, rfl, rfl, rfl, rfl, rfl, ?_, ?_, ?_⟩
    · refine ⟨by simp, by simp, ?_⟩
      intro st1 hst1
      rcases List.mem_or_eq_of_mem_set hst1 with h | h
      · exact hi.once st1 h
      · subst h
        simp [hr]
    · simp
    · intro b
      have := recOf_set { w with pendingOperations_ := [] } a b
        ⟨st.rec_ ++ [signalOf ev], st.eventStopToken_, consumed⟩ hlt
      simp only [List.mem_singleton]
      rw [this]
      simp [hr, recOf]
    · intro b hb
      have hne : a ≠ b := by
        intro h
        exact hb (by simp [h])
      simp [List.getElem?_set, hne]

theorem inv_dispatch {E R : Type} (w : sender_range E R) (ev : Option E) (hi : Inv w) :
    ∃ w1, dispatch w ev = .ok w1 ∧ Inv w1 ∧ w1.pendingOperations_ = [] ∧
      w1.rangeToken_ = w.rangeToken_ ∧ w1.registration_ = w.registration_ ∧
      w1.unregisterFn_calls = w.unregisterFn_calls ∧
      w1.states.length = w.states.length ∧
      (∀ a, recOf w1 a = if a ∈ w.pendingOperations_ then [signalOf ev] else recOf w a) := by
  obtain ⟨w1, h1, hw, hq, hrt, hrg, hu, hrc, hl, hrec, _⟩ := dispatch_waitInv w ev hi.waits
  refine ⟨w1, h1, ⟨hw, ?_, ?_, ?_, ?_⟩, hq, hrt, hrg, hu, hl, hrec⟩
  · rw [hrc]
    exact hi.registered
  · rw [hu, hrg]
    exact hi.unregistered
  · rw [hrt, hrg]
    exact hi.stopped_iff
  · intro _
    exact hq

theorem allCompleted_queue_nil {E R : Type} (w : sender_range E R) (hi : WaitInv w)
    (hc : allCompleted w = true) : w.pendingOperations_ = [] := by
  cases hq : w.pendingOperations_ with
  | nil => rfl
  | cons a rest =>
    obtain ⟨st, hs, _, hr⟩ := hi.queued a (by simp [hq])
    have hmem : st ∈ w.states := List.getElem?_mem hs
    have := (List.all_eq_true.mp hc) st hmem
    simp [hr] at this

theorem inv_construct {E R : Type} (reg : R) (w : sender_range E R)
    (h : construct false reg = .ok w) : Inv w := by
  simp only [construct, Bool.false_eq_true, if_false, Except.ok.injEq] at h
  subst h
  refine ⟨⟨by simp, by simp, by simp⟩, rfl, by simp, by simp, by simp⟩

theorem inv_next {E R : Type} (w : sender_range E R) (tok : Bool) (hi : Inv w)
    (hq : w.pendingOperations_ = []) :
    ∃ w1, create_sender.state.construct w tok = .ok w1 ∧ Inv w1 := by
  refine ⟨_, construct_state_eq w tok hq, ?_⟩
  have honce := hi.waits.once
  have hreg := hi.registered
  have hun := hi.unregistered
  have hst := hi.stopped_iff
  by_cases hc : (w.rangeToken_ || tok) = true
  · rw [if_pos hc]
    refine ⟨⟨by simp [hq], by simp [hq], ?_⟩, hreg, hun, hst, fun _ => hq⟩
    intro st hst1
    rcases List.mem_append.mp hst1 with h | h
    · exact honce st h
    · simp at h
      subst h
      simp
  · rw [if_neg hc]
    simp only [Bool.or_eq_true, not_or, Bool.not_eq_true] at hc
    refine ⟨⟨by simp, ?_, ?_⟩, hreg, hun, hst, ?_⟩
    · intro a ha
      simp only [List.mem_singleton] at ha
      subst ha
      exact ⟨⟨[], tok, armed w.states.length⟩, by simp, rfl, rfl⟩
    · intro st hst1
      rcases List.mem_append.mp hst1 with h | h
      · exact honce st h
      · simp at h
        subst h
        simp
    · intro hnone
      have := hst.mpr hnone
      simp [hc.1] at this

theorem unregister_fault {E R : Type} (dtor : R → Option Fault) (w : sender_range E R)
    (r : R) (f : Fault) (hr : w.registration_ = some r) (hf : dtor r = some f) :
    _unregister dtor w =
      .error (f, { w with unregisterFn_calls := w.unregisterFn_calls ++ [r] }) := by
  simp [_unregister, hr, hf]

theorem unregister_of_inv {E R : Type} (dtor : R → Option Fault) (w : sender_range E R)
    (hi : Inv w) (hd : ∀ r, w.registration_ = some r → dtor r = none) :
    ∃ w1, _unregister dtor w = .ok w1 ∧ WaitInv w1 ∧ w1.pendingOperations_ = [] ∧
      w1.registration_ = none ∧ w1.rangeToken_ = w.rangeToken_ ∧
      w1.unregisterFn_calls = w.unregisterFn_calls ++ w.registration_.toList ∧
      w1.unregisterFn_calls.length = 1 ∧ w1.registerFn_calls = 1 ∧
      w1.states.length = w.states.length ∧
      (∀ a, recOf w1 a = if a ∈ w.pendingOperations_ then [Signal.set_done] else recOf w a) := by
  cases hr : w.registration_ with
  | none =>
    have hun := hi.unregistered
    simp only [hr, Option.isSome_none, Bool.false_eq_true, if_false] at hun
    have hq := hi.drained hr
    refine ⟨w, by simp [_unregister, hr], hi.waits, hq, hr, rfl, by simp, hun,
      hi.registered, rfl, ?_⟩
    intro a
    simp [hq]
  | some r =>
    have hdr := hd r hr
    have hun := hi.unregistered
    simp only [hr, Option.isSome_some, if_true] at hun
    have hw : WaitInv ({ w with unregisterFn_calls := w.unregisterFn_calls ++ [r],
                                registration_ := none } : sender_range E R) :=
      ⟨hi.waits.queue_le, hi.waits.queued, hi.waits.once⟩
    obtain ⟨w1, h1, hw1, hq, hrt, hrg, hu, hrc, hl, hrec, _⟩ := dispatch_waitInv _ none hw
    refine ⟨w1, by simp [_unregister, hr, hdr, stop_pending, h1], hw1, hq, hrg, hrt, ?_, ?_,
      ?_, hl, ?_⟩
    · simpa using hu
    · rw [hu]
      simp [List.length_eq_zero.mp hun]
    · rw [hrc]
      exact hi.registered
    · intro a
      rw [hrec a]
      rfl

theorem request_stop_fault {E R : Type} (dtor : R → Option Fault) (w : sender_range E R)
    (hi : Inv w) (r : R) (f : Fault) (hr : w.registration_ = some r) (hf : dtor r = some f) :
    request_stop dtor w =
      .error (f, { w with rangeToken_ := true,
                          unregisterFn_calls := w.unregisterFn_calls ++ [r] }) := by
  have hrt : w.rangeToken_ = false := by
    cases h : w.rangeToken_ with
    | false => rfl
    | true =>
      have := hi.stopped_iff.mp h
      rw [hr] at this
      cases this
  simp [request_stop, hrt, stop_callback, _unregister, hr, hf]

theorem inv_request_stop {E R : Type} (dtor : R → Option Fault) (w : sender_range E R)
    (hi : Inv w) (hd : ∀ r, w.registration_ = some r → dtor r = none) :
    ∃ w1, request_stop dtor w = .ok w1 ∧ Inv w1 ∧ w1.rangeToken_ = true ∧
      w1.registration_ = none ∧ w1.pendingOperations_ = [] ∧
      (∀ a, recOf w1 a = if a ∈ w.pendingOperations_ then [Signal.set_done] else recOf w a) := by
  cases hrt : w.rangeToken_ with
  | true =>
    have hnone := hi.stopped_iff.mp hrt
    have hq := hi.drained hnone
    refine ⟨w, by simp [request_stop, hrt], hi, hrt, hnone, hq, ?_⟩
    intro a
    simp [hq]
  | false =>
    have hsome : w.registration_ ≠ none := by
      intro h
      have := hi.stopped_iff.mpr h
      simp [hrt] at this
    obtain ⟨r, hr⟩ := Option.ne_none_iff_exists'.mp hsome
    have hdr := hd r hr
    have hun := hi.unregistered
    simp only [hr, Option.isSome_some, if_true] at hun
    have hw : WaitInv ({ w with rangeToken_ := true,
                                unregisterFn_calls := w.unregisterFn_calls ++ [r],
                                registration_ := none } : sender_range E R) :=
      ⟨hi.waits.queue_le, hi.waits.queued, hi.waits.once⟩
    obtain ⟨w1, h1, hw1, hq, hrt1, hrg, hu, hrc, _, hrec, _⟩ := dispatch_waitInv _ none hw
    refine ⟨w1, by simp [request_stop, hrt, stop_callback, _unregister, hr, hdr, stop_pending,
      h1], ⟨hw1, ?_, ?_, ?_, fun _ => hq⟩, hrt1, hrg, hq, ?_⟩
    · rw [hrc]
      exact hi.registered
    · rw [hu, hrg]
      simp [List.length_eq_zero.mp hun]
    · rw [hrt1, hrg]
      simp
    · intro a
      rw [hrec a]
      rfl

theorem inv_of_reachable {E R : Type} (w : sender_range E R) (h : Reachable w) : Inv w := by
  induction h with
  | construct reg w h => exact inv_construct reg w h
  | next w w1 tok _ hc h ih =>
    obtain ⟨w2, h2, hi2⟩ := inv_next w tok ih (allCompleted_queue_nil w ih.waits hc)
    rw [h2] at h
    cases h
    exact hi2
  | dispatch w w1 e _ h ih =>
    obtain ⟨w2, h2, hi2, _⟩ := inv_dispatch w (some e) ih
    rw [event_function, h2] at h
    cases h
    exact hi2
  | stop_pending w w1 _ h ih =>
    obtain ⟨w2, h2, hi2, _⟩ := inv_dispatch w none ih
    rw [create_sender.state.stop_callback, stop_pending, h2] at h
    cases h
    exact hi2
  | request_stop dtor w w1 _ h ih =>
    by_cases hd : ∀ r, w.registration_ = some r → dtor r = none
    · obtain ⟨w2, h2, hi2, _⟩ := inv_request_stop dtor w ih hd
      rw [h2] at h
      cases h
      exact hi2
    · simp only [not_forall] at hd
      obtain ⟨r, hr, hf⟩ := hd
      obtain ⟨f, hf⟩ := Option.ne_none_iff_exists'.mp hf
      rw [request_stop_fault dtor w ih r f hr hf] at h
      cases h

theorem unregisterTimes_of_none {E R : Type} (dtor : R → Option Fault) (n : Nat)
    (w : sender_range E R) (h : w.registration_ = none) :
    unregisterTimes dtor n w = .ok w := by
  induction n with
  | zero => rfl
  | succ k ih => simp [unregisterTimes, _unregister, h, andThen, ih]

theorem dispatchAll_of_nil {E R : Type} (es : List E) (w : sender_range E R)
    (hq : w.pendingOperations_ = []) : dispatchAll es w = .ok w := by
  induction es with
  | nil => rfl
  | cons e es ih => simp [dispatchAll, event_function, dispatch_nil w (some e) hq, andThen, ih]

/-! ## C3 -/

/-- C3, counterexample: on the bridge of a keyboard hook that was started, with one wait
pending, `_unregister` calls `unregister_` and then ends in `std::terminate`
inside `~_keyboard_hook`, which `registration_.reset()` runs while `hHook_` is
set: `registration_` is not emptied and the pending wait is not completed. -/
theorem unregister_with_hook_installed_terminates :
    keyboard_hook.andThen (keyboard_hook.start freshKeyboard (some 5))
        (fun k => keyboard_hook.next k false) = .ok startedWaiting ∧
    keyboard_hook._unregister startedWaiting =
      .error (Fault.terminate,
        ⟨⟨false, some 0, [0], [⟨[], false, armed 0⟩], [0], 1⟩, hooked⟩) ∧
    _unregister (hookDestructor startedWaiting.process) startedWaiting.range_ =
      .error (Fault.terminate, ⟨false, some 0, [0], [⟨[], false, armed 0⟩], [0], 1⟩) := by
  exact ⟨rfl, rfl, rfl⟩

/-- C3, amended: on every bridge reachable after construction (it has no wait or one wait
pending) whose registration has a destructor that returns, `N` calls of
`_unregister` in a row, `N ≥ 1`, return normally and give the state the first
call alone gives, on which a further call changes nothing. `unregisterFn_` is
called once for the registration that was still held, so once in all since
construction; `registration_` ends empty, the queue ends empty, the receiver of
the pending wait (if any) is given exactly `set_done`, and no other receiver is
given anything. Construction followed at once by destruction calls
`unregisterFn_` exactly once and returns normally. When the destructor of the
registration ends in a fault, the first call ends in that fault after it called
`unregisterFn_` once: `registration_` is not emptied and no wait is completed. -/
theorem unregister_idempotent {E R : Type} (dtor : R → Option Fault) (N : Nat) (hN : 1 ≤ N)
    (w : sender_range E R) (hw : Reachable w) :
    ((∀ r, w.registration_ = some r → dtor r = none) →
      ∃ w1, unregisterTimes dtor N w = .ok w1 ∧
        _unregister dtor w = .ok w1 ∧ (∀ dtor1, _unregister dtor1 w1 = .ok w1) ∧
        w1.unregisterFn_calls = w.unregisterFn_calls ++ w.registration_.toList ∧
        w1.unregisterFn_calls.length = 1 ∧
        w1.registration_ = none ∧
        w1.pendingOperations_ = [] ∧
        w.pendingOperations_.length ≤ 1 ∧
        (∀ a, recOf w1 a =
          if a ∈ w.pendingOperations_ then [Signal.set_done] else recOf w a)) ∧
    (∀ r f, w.registration_ = some r → dtor r = some f →
      _unregister dtor w =
        .error (f, { w with unregisterFn_calls := w.unregisterFn_calls ++ [r] }) ∧
      unregisterTimes dtor N w =
        .error (f, { w with unregisterFn_calls := w.unregisterFn_calls ++ [r] })) ∧
    (∀ reg : R, dtor reg = none → ∃ w0 : sender_range E R, construct false reg = .ok w0 ∧
      destruct dtor w0 = .ok { w0 with registration_ := none, unregisterFn_calls := [reg] }) := by
  have hi := inv_of_reachable w hw
  obtain ⟨n, rfl⟩ : ∃ n, N = n + 1 := ⟨N - 1, by omega⟩
  refine ⟨?_, ?_, ?_⟩
  · intro hd
    obtain ⟨w1, h1, _, hq, hrg, _, hu, hul, _, _, hrec⟩ := unregister_of_inv dtor w hi hd
    have hagain : ∀ dtor1, _unregister dtor1 w1 = .ok w1 := by
      intro dtor1
      simp [_unregister, hrg]
    refine ⟨w1, ?_, h1, hagain, hu, hul, hrg, hq, hi.waits.queue_le, hrec⟩
    simp [unregisterTimes, h1, andThen, unregisterTimes_of_none dtor n w1 hrg]
  · intro r f hr hf
    have h1 := unregister_fault dtor w r f hr hf
    exact ⟨h1, by simp [unregisterTimes, h1, andThen]⟩
  · intro reg hreg
    exact ⟨⟨false, some reg, [], [], [], 1⟩, rfl, by
      simp [destruct, _unregister, hreg, stop_pending, dispatch]⟩

/-- Witness for C3 amended: three calls of `_unregister` on the reachable bridge `waiting`,
with a destructor that returns and with one that ends in `std::terminate`, and
construction followed by destruction with the destructor of a keyboard hook that
was not started. -/
theorem unregister_idempotent_witness :
    (1 ≤ 3 ∧ Reachable waiting) ∧
    (∃ w1, unregisterTimes (fun _ => none) 3 waiting = .ok w1 ∧
      _unregister (fun _ => none) waiting = .ok w1 ∧
      (∀ dtor1, _unregister dtor1 w1 = .ok w1) ∧
      w1.unregisterFn_calls = waiting.unregisterFn_calls ++ waiting.registration_.toList ∧
      w1.unregisterFn_calls.length = 1 ∧
      w1.registration_ = none ∧
      w1.pendingOperations_ = [] ∧
      waiting.pendingOperations_.length ≤ 1 ∧
      (∀ a, recOf w1 a =
        if a ∈ waiting.pendingOperations_ then [Signal.set_done] else recOf waiting a)) ∧
    (_unregister (fun _ => some Fault.terminate) waiting =
        .error (Fault.terminate,
          { waiting with unregisterFn_calls := waiting.unregisterFn_calls ++ [7] }) ∧
      unregisterTimes (fun _ => some Fault.terminate) 3 waiting =
        .error (Fault.terminate,
          { waiting with unregisterFn_calls := waiting.unregisterFn_calls ++ [7] })) ∧
    (∃ w0 : sender_range Nat Nat, construct false 0 = .ok w0 ∧
      destruct (hookDestructor freshKeyboard.process) w0 =
        .ok { w0 with registration_ := none, unregisterFn_calls := [0] }) :=
  have hr : Reachable waiting :=
    Reachable.next fresh waiting false (Reachable.construct 7 fresh rfl) rfl rfl
  ⟨⟨by decide, hr⟩,
    (unregister_idempotent (fun _ => none) 3 (by decide) waiting hr).1 (fun _ _ => rfl),
    (unregister_idempotent (fun _ => some Fault.terminate) 3 (by decide) waiting hr).2.1
      7 Fault.terminate rfl rfl,
    (unregister_idempotent (hookDestructor freshKeyboard.process) 3 (by decide) waiting hr).2.2
      0 rfl⟩

/-! ## C4 -/

/-- C4: on a bridge with no wait pending, calling the emitter for every event of any
finite list returns normally and leaves the whole object as it was, so no
receiver is completed and no event is kept. A `next()` started afterwards does
what it does on the untouched bridge: with the tokens not stopped it is queued
as the only pending wait and its receiver was given nothing. -/
theorem dispatch_without_wait_drops {E R : Type} (w : sender_range E R) (es : List E)
    (hq : w.pendingOperations_ = []) :
    dispatchAll es w = .ok w ∧
    (∀ tok, andThen (dispatchAll es w) (fun w1 => create_sender.state.construct w1 tok) =
      create_sender.state.construct w tok) ∧
    (w.rangeToken_ = false →
      andThen (dispatchAll es w) (fun w1 => create_sender.state.construct w1 false) =
        .ok { w with
          pendingOperations_ := [w.states.length]
          states := w.states ++ [⟨[], false, armed w.states.length⟩] }) := by
  have h := dispatchAll_of_nil es w hq
  refine ⟨h, ?_, ?_⟩
  · intro tok
    simp [h, andThen]
  · intro hrt
    simp [h, andThen, construct_state_eq w false hq, hrt]

/-- Witness for C4: the events 1, 2, 3 on the bridge `fresh`, then a `next()`. -/
theorem dispatch_without_wait_drops_witness :
    dispatchAll [1, 2, 3] fresh = .ok fresh ∧
    (∀ tok, andThen (dispatchAll [1, 2, 3] fresh)
        (fun w1 => create_sender.state.construct w1 tok) =
      create_sender.state.construct fresh tok) ∧
    (fresh.rangeToken_ = false →
      andThen (dispatchAll [1, 2, 3] fresh) (fun w1 => create_sender.state.construct w1 false) =
        .ok { fresh with
          pendingOperations_ := [fresh.states.length]
          states := fresh.states ++ [⟨[], false, armed fresh.states.length⟩] }) :=
  dispatch_without_wait_drops fresh [1, 2, 3] rfl

/-! ## C6 -/

/-- C6, counterexample: on the bridge `waiting`, a first call of `operator()` on the pending
operation at address 0 completes its receiver with the event 42; a second call on
the same pending operation calls through the null `complete_with_event_`, which
is a fault. -/
theorem second_operator_call_faults :
    andThen (pending_operation.operator_call waiting 0 (some 42))
        (fun w => pending_operation.operator_call w 0 (some 43)) =
      .error (Fault.null_call,
        ⟨false, some 7, [0], [⟨[Signal.set_value 42], false, consumed⟩], [], 1⟩) := by
  rfl

/-- C6, amended: once `dispatch` or `stop_pending` has completed the one pending wait, its
slot is consumed and it is no longer in `pendingOperations_`; a later `dispatch`
or `stop_pending` finds the queue empty, returns normally and changes nothing.
The call operator itself has no guard: called on the consumed pending operation
it is a call through a null function pointer, completing no receiver. -/
theorem consumed_wait_not_completed_again {E R : Type} (w : sender_range E R) (a : Nat)
    (st : create_sender.state E) (ev1 ev2 : Option E)
    (hq : w.pendingOperations_ = [a]) (hs : w.states[a]? = some st)
    (hp : st.pending_ = armed a) :
    ∃ w1, dispatch w ev1 = .ok w1 ∧
      w1.states[a]? = some ⟨st.rec_ ++ [signalOf ev1], st.eventStopToken_, consumed⟩ ∧
      w1.pendingOperations_ = [] ∧
      dispatch w1 ev2 = .ok w1 ∧
      pending_operation.operator_call w1 a ev2 = .error (Fault.null_call, w1) := by
  have hlt : a < w.states.length := getElem?_lt_of_some _ _ _ hs
  refine ⟨_, dispatch_one w a st ev1 hq hs hp, ?_, rfl, dispatch_nil _ ev2 rfl, ?_⟩
  · simp [List.getElem?_set, hlt]
  · simp [pending_operation.operator_call, List.getElem?_set, hlt, consumed]

/-- Witness for C6 amended: the event 42 and then the event 43 on the bridge `waiting`. -/
theorem consumed_wait_not_completed_again_witness :
    ∃ w1, dispatch waiting (some 42) = .ok w1 ∧
      w1.states[0]? = some ⟨[] ++ [signalOf (some 42)], false, consumed⟩ ∧
      w1.pendingOperations_ = [] ∧
      dispatch w1 (some 43) = .ok w1 ∧
      pending_operation.operator_call w1 0 (some 43) = .error (Fault.null_call, w1) :=
  consumed_wait_not_completed_again waiting 0 ⟨[], false, armed 0⟩ (some 42) (some 43)
    rfl rfl rfl

/-! ## C7 -/

/-- C7, counterexample: on the bridge `waiting`, where the first `next()` is still pending,
starting a second `next()` returns normally and leaves two entries in
`pendingOperations_`. -/
theorem second_next_is_enqueued :
    create_sender.state.construct waiting false = .ok overlapping ∧
      overlapping.pendingOperations_.length = 2 := by
  exact ⟨rfl, rfl⟩

/-- C7, amended: `start` makes no check of the queue. With the tokens not stopped, a
`next()` started while a wait is pending returns normally and is queued behind
it, so `pendingOperations_` then holds two or more entries; the overlap is
detected by the next `dispatch` or `stop_pending`, which calls `std::terminate`
before completing any wait. -/
theorem overlapping_next_enqueued_then_dispatch_terminates {E R : Type}
    (w : sender_range E R) (hrt : w.rangeToken_ = false) (hp : w.pendingOperations_ ≠ []) :
    ∃ w1, create_sender.state.construct w false = .ok w1 ∧
      w1 = { w with
        pendingOperations_ := w.pendingOperations_ ++ [w.states.length]
        states := w.states ++ [⟨[], false, armed w.states.length⟩] } ∧
      2 ≤ w1.pendingOperations_.length ∧
      ∀ ev, dispatch w1 ev = .error (Fault.terminate, { w1 with pendingOperations_ := [] }) := by
  have h2 : 2 ≤ (w.pendingOperations_ ++ [w.states.length]).length := by
    cases hq : w.pendingOperations_ with
    | nil => exact absurd hq hp
    | cons a rest => simp
  refine ⟨_, ?_, rfl, h2, fun ev => dispatch_many _ ev h2⟩
  simp [create_sender.state.construct, start, hrt, armed]

/-- Witness for C7 amended: a second `next()` on the bridge `waiting`. -/
theorem overlapping_next_enqueued_then_dispatch_terminates_witness :
    ∃ w1, create_sender.state.construct waiting false = .ok w1 ∧
      w1 = { waiting with
        pendingOperations_ := waiting.pendingOperations_ ++ [waiting.states.length]
        states := waiting.states ++ [⟨[], false, armed waiting.states.length⟩] } ∧
      2 ≤ w1.pendingOperations_.length ∧
      ∀ ev, dispatch w1 ev = .error (Fault.terminate, { w1 with pendingOperations_ := [] }) :=
  overlapping_next_enqueued_then_dispatch_terminates waiting rfl (by decide)

/-! ## C8 -/

/-- C8: with two or more waits in `pendingOperations_`, the emitter called with any event
and `stop_pending` both end in `std::terminate`, with every operation state as
it was, so no wait was completed. With zero or one wait `dispatch` never ends in
`std::terminate`, and when the queued wait is well formed it returns normally. -/
theorem dispatch_terminates_iff_overlap {E R : Type} (w : sender_range E R) :
    (2 ≤ w.pendingOperations_.length →
      (∀ e, event_function w e = .error (Fault.terminate, { w with pendingOperations_ := [] })) ∧
      stop_pending w = .error (Fault.terminate, { w with pendingOperations_ := [] })) ∧
    (w.pendingOperations_.length ≤ 1 →
      ∀ ev f w1, dispatch w ev = .error (f, w1) → f ≠ Fault.terminate) ∧
    (WaitInv w → ∀ ev, ∃ w1, dispatch w ev = .ok w1) := by
  refine ⟨fun h => ⟨fun e => dispatch_many w (some e) h, dispatch_many w none h⟩, ?_, ?_⟩
  · intro hle ev f w1 h
    cases hq : w.pendingOperations_ with
    | nil =>
      rw [dispatch_nil w ev hq] at h
      cases h
    | cons a rest =>
      have hrest : rest = [] := by
        cases rest with
        | nil => rfl
        | cons b more => simp [hq] at hle
      subst hrest
      simp only [dispatch, hq, List.isEmpty_nil, Bool.not_true, Bool.false_eq_true, if_false,
        pending_operation.operator_call] at h
      split at h
      · cases h
        decide
      · split at h
        · cases h
          decide
        · simp only [_complete_with_event] at h
          split at h
          · cases h
            decide
          · split at h
            · cases h
              decide
            · split at h <;> cases h
  · intro hi ev
    obtain ⟨w1, h1, _⟩ := dispatch_waitInv w ev hi
    exact ⟨w1, h1⟩

/-- Witness for C8: the bridge `overlapping` holds two waits, the bridges `waiting` and
`fresh` one and none. -/
theorem dispatch_terminates_iff_overlap_witness :
    event_function overlapping 42 =
      .error (Fault.terminate, { overlapping with pendingOperations_ := [] }) ∧
    stop_pending overlapping =
      .error (Fault.terminate, { overlapping with pendingOperations_ := [] }) ∧
    (∃ w1, dispatch waiting (some 42) = .ok w1) ∧
    (∃ w1, dispatch fresh (some 42) = .ok w1) :=
  ⟨((dispatch_terminates_iff_overlap overlapping).1 (by decide)).1 42,
   ((dispatch_terminates_iff_overlap overlapping).1 (by decide)).2,
   (dispatch_terminates_iff_overlap waiting).2.2
     ⟨by decide, by simp [waiting], by simp [waiting]⟩ (some 42),
   (dispatch_terminates_iff_overlap fresh).2.2
     ⟨by decide, by simp [fresh], by simp [fresh]⟩ (some 42)⟩

theorem sum_map_set {α : Type} (f : α → Nat) (l : List α) (a : Nat) (x st : α)
    (h : l[a]? = some st) : ((l.set a x).map f).sum + f st = (l.map f).sum + f x := by
  induction l generalizing a with
  | nil => simp at h
  | cons y ys ih =>
    cases a with
    | zero =>
      simp at h
      subst h
      simp only [List.set_cons_zero, List.map_cons, List.sum_cons]
      omega
    | succ k =>
      simp at h
      have := ih k h
      simp only [List.set_cons_succ, List.map_cons, List.sum_cons]
      omega

theorem event_step {E R : Type} (w : sender_range E R) (e : E) (hi : WaitInv w) :
    ∃ w1, event_function w e = .ok w1 ∧ WaitInv w1 ∧ w1.rangeToken_ = w.rangeToken_ ∧
      w1.states.length = w.states.length ∧
      (∀ a, recOf w1 a =
        recOf w a ++ if a ∈ w.pendingOperations_ then [Signal.set_value e] else []) ∧
      valueCount w1 = valueCount w + w.pendingOperations_.length := by
  obtain ⟨w1, h1, hw1, _, hrt, _, _, _, hl, hrec, _⟩ := dispatch_waitInv w (some e) hi
  refine ⟨w1, h1, hw1, hrt, hl, ?_, ?_⟩
  · intro a
    rw [hrec a]
    by_cases ha : a ∈ w.pendingOperations_
    · obtain ⟨st, hs, _, hr⟩ := hi.queued a ha
      simp [ha, recOf, hs, hr, signalOf]
    · simp [ha]
  · cases hq : w.pendingOperations_ with
    | nil =>
      rw [dispatch_nil w (some e) hq] at h1
      cases h1
      simp
    | cons a rest =>
      have hlen := hi.queue_le
      rw [hq] at hlen
      have hrest : rest = [] := by
        cases rest with
        | nil => rfl
        | cons b more => simp at hlen
      subst hrest
      obtain ⟨st, hs, hp, hr⟩ := hi.queued a (by simp [hq])
      rw [dispatch_one w a st (some e) hq hs hp] at h1
      cases h1
      have hsum := sum_map_set (fun s : create_sender.state E => s.rec_.countP Signal.isValue)
        w.states a ⟨st.rec_ ++ [signalOf (some e)], st.eventStopToken_, consumed⟩ st hs
      have e1 : List.countP Signal.isValue (st.rec_ ++ [signalOf (some e)]) = 1 := by
        rw [hr]
        rfl
      have e0 : List.countP Signal.isValue st.rec_ = 0 := by
        rw [hr]
        rfl
      simp only [e1, e0, Nat.add_zero] at hsum
      simp only [valueCount, List.length_singleton]
      exact hsum

theorem next_step {E R : Type} (w : sender_range E R) (hi : WaitInv w)
    (hrt : w.rangeToken_ = false) (hc : allCompleted w = true) :
    ∃ w1, create_sender.state.construct w false = .ok w1 ∧ WaitInv w1 ∧
      w1.rangeToken_ = false ∧ w.states.length ≤ w1.states.length ∧
      w.pendingOperations_ = [] ∧
      (∀ a, recOf w1 a = recOf w a) ∧ valueCount w1 = valueCount w := by
  have hq := allCompleted_queue_nil w hi hc
  have h := construct_state_eq w false hq
  simp only [hrt, Bool.or_self, Bool.false_eq_true, if_false] at h
  refine ⟨_, h, ⟨by simp, ?_, ?_⟩, rfl, by simp, hq, ?_, ?_⟩
  · intro a ha
    simp only [List.mem_singleton] at ha
    subst ha
    exact ⟨⟨[], false, armed w.states.length⟩, by simp, rfl, rfl⟩
  · intro st hst1
    rcases List.mem_append.mp hst1 with h | h
    · exact hi.once st h
    · simp at h
      subst h
      simp
  · intro a
    simp only [recOf]
    rcases Nat.lt_trichotomy a w.states.length with h | h | h
    · simp [List.getElem?_append_left h]
    · subst h
      simp
    · rw [List.getElem?_eq_none (by simp; omega), List.getElem?_eq_none (by omega)]
  · simp [valueCount]

theorem recOf_length_le {E R : Type} (w : sender_range E R) (hi : WaitInv w) (a : Nat) :
    (recOf w a).length ≤ 1 := by
  unfold recOf
  cases hs : w.states[a]? with
  | none => simp
  | some st => exact hi.once st (List.getElem?_mem hs)

theorem run_trace {E R : Type} (acts : List (Action E)) (w : sender_range E R)
    (hi : WaitInv w) (hrt : w.rangeToken_ = false) (hn : nonOverlapping w acts = true) :
    ∃ w1, run acts w = .ok w1 ∧ WaitInv w1 ∧ w1.rangeToken_ = false ∧
      w.states.length ≤ w1.states.length ∧
      valueCount w1 = valueCount w + (found w acts).length ∧
      (found w acts).length ≤ dispatchCount acts ∧
      ∀ a, recOf w1 a = recOf w a ++
        ((found w acts).filter (fun p => p.1 == a)).map (fun p => Signal.set_value p.2) := by
  induction acts generalizing w with
  | nil =>
    exact ⟨w, rfl, hi, hrt, Nat.le_refl _, by simp [found], by simp [found], by simp [found]⟩
  | cons act rest ih =>
    cases act with
    | next =>
      simp only [nonOverlapping, Bool.and_eq_true] at hn
      obtain ⟨w1, h1, hi1, hrt1, hl1, hq, hrec1, hv1⟩ := next_step w hi hrt hn.1
      have hn2 := hn.2
      simp only [step, h1] at hn2
      obtain ⟨w2, h2, hi2, hrt2, hl2, hv2, hd2, hrec2⟩ := ih w1 hi1 hrt1 hn2
      refine ⟨w2, by simp [run, step, h1, andThen, h2], hi2, hrt2, Nat.le_trans hl1 hl2, ?_, ?_, ?_⟩
      · simp [found, step, h1, hv2, hv1]
      · simp only [found, step, h1, List.nil_append, dispatchCount, Action.isDispatch]
        simp only [dispatchCount] at hd2
        rw [List.countP_cons_of_neg]
        · exact hd2
        · simp [Action.isDispatch]
      · intro a
        simp [found, step, h1, hrec2 a, hrec1 a]
    | dispatch e =>
      simp only [nonOverlapping, Bool.true_and] at hn
      obtain ⟨w1, h1, hi1, hrt1, hl1, hrec1, hv1⟩ := event_step w e hi
      simp only [step, h1] at hn
      obtain ⟨w2, h2, hi2, hrt2, hl2, hv2, hd2, hrec2⟩ := ih w1 hi1 (hrt1.trans hrt) hn
      have hfound : found w (Action.dispatch e :: rest) =
          (w.pendingOperations_.map (fun p => (p, e))) ++ found w1 rest := by
        have hlen := hi.queue_le
        cases hq : w.pendingOperations_ with
        | nil => simp [found, step, h1, hq]
        | cons p more =>
          cases more with
          | nil => simp [found, step, h1, hq]
          | cons b more2 => simp [hq] at hlen
      refine ⟨w2, by simp [run, step, h1, andThen, h2], hi2, hrt2, by omega, ?_, ?_, ?_⟩
      · rw [hfound, hv2, hv1]
        simp
        omega
      · rw [hfound]
        have hlen := hi.queue_le
        simp only [dispatchCount] at hd2 ⊢
        rw [List.countP_cons_of_pos]
        · simp
          omega
        · rfl
      · intro a
        rw [hfound, hrec2 a, hrec1 a]
        have hlen := hi.queue_le
        cases hq : w.pendingOperations_ with
        | nil => simp
        | cons p more =>
          cases more with
          | cons b more2 => simp [hq] at hlen
          | nil =>
            by_cases hpa : a = p
            · subst hpa
              simp
            · have hpa2 : ¬ p = a := fun h => hpa h.symm
              simp [hpa, hpa2]

/-! ## C9 -/

/-- C9: take a bridge with well-formed waits whose range token is not stopped, and any finite
schedule of `next()` starts (operation token not stopped, each started only when
every earlier operation has completed) and emitter calls. The schedule runs to
the end without fault. The number of `set_value` completions it adds equals the
number of emitter calls that executed while a wait was pending, which is at most
the number of emitter calls. Every receiver is given, on top of what it had,
exactly the events of the emitter calls that found its wait at the front of the
queue, as `set_value` signals in order; no receiver holds more than one signal,
and a wait started by the schedule was found by at most one emitter call. -/
theorem values_equal_dispatches_that_found_a_wait {E R : Type} (w : sender_range E R)
    (acts : List (Action E)) (hi : WaitInv w) (hrt : w.rangeToken_ = false)
    (hn : nonOverlapping w acts = true) :
    ∃ w1, run acts w = .ok w1 ∧
      valueCount w1 = valueCount w + (found w acts).length ∧
      (found w acts).length ≤ dispatchCount acts ∧
      (∀ a, recOf w1 a = recOf w a ++
        ((found w acts).filter (fun p => p.1 == a)).map (fun p => Signal.set_value p.2)) ∧
      (∀ a, (recOf w1 a).length ≤ 1) ∧
      (∀ a, w.states.length ≤ a →
        recOf w1 a =
          ((found w acts).filter (fun p => p.1 == a)).map (fun p => Signal.set_value p.2) ∧
        ((found w acts).filter (fun p => p.1 == a)).length ≤ 1) := by
  obtain ⟨w1, h1, hi1, _, _, hv, hd, hrec⟩ := run_trace acts w hi hrt hn
  refine ⟨w1, h1, hv, hd, hrec, recOf_length_le w1 hi1, ?_⟩
  intro a ha
  have hnil : recOf w a = [] := by
    simp [recOf, List.getElem?_eq_none ha]
  have hra := hrec a
  rw [hnil, List.nil_append] at hra
  refine ⟨hra, ?_⟩
  have hlen := recOf_length_le w1 hi1 a
  rw [hra, List.length_map] at hlen
  exact hlen

/-- Witness for C9: the schedule `schedule` on the bridge `fresh`. -/
theorem values_equal_dispatches_that_found_a_wait_witness :
    nonOverlapping fresh schedule = true ∧ found fresh schedule = [(0, 42), (1, 9)] ∧
    ∃ w1, run schedule fresh = .ok w1 ∧
      valueCount w1 = valueCount fresh + (found fresh schedule).length ∧
      (found fresh schedule).length ≤ dispatchCount schedule ∧
      (∀ a, recOf w1 a = recOf fresh a ++
        ((found fresh schedule).filter (fun p => p.1 == a)).map
          (fun p => Signal.set_value p.2)) ∧
      (∀ a, (recOf w1 a).length ≤ 1) ∧
      (∀ a, fresh.states.length ≤ a →
        recOf w1 a =
          ((found fresh schedule).filter (fun p => p.1 == a)).map
            (fun p => Signal.set_value p.2) ∧
        ((found fresh schedule).filter (fun p => p.1 == a)).length ≤ 1) :=
  ⟨rfl, rfl, values_equal_dispatches_that_found_a_wait fresh schedule
    ⟨by decide, by simp [fresh], by simp [fresh]⟩ rfl rfl⟩

/-! ## C10 -/

/-- C11: when the one pending wait is cancelled through the token of its operation (the
callback `create_sender::state::stop_callback`, which calls `stop_pending`), the
call returns normally, the receiver of the wait is given exactly `set_done`, no
wait stays pending, `unregisterFn_` is not called, the registration stays in
`registration_` and the token of the range is as before. The bridge stays
registered until `_unregister` runs: the destructor then calls `unregisterFn_`
with that registration. -/
theorem operation_stop_keeps_registration {E R : Type} (w : sender_range E R) (a : Nat)
    (st : create_sender.state E) (r : R)
    (hq : w.pendingOperations_ = [a]) (hs : w.states[a]? = some st)
    (hp : st.pending_ = armed a) (hr : w.registration_ = some r) :
    ∃ w1, create_sender.state.stop_callback w = .ok w1 ∧
      recOf w1 a = st.rec_ ++ [Signal.set_done] ∧
      w1.pendingOperations_ = [] ∧
      w1.registration_ = some r ∧
      w1.unregisterFn_calls = w.unregisterFn_calls ∧
      w1.rangeToken_ = w.rangeToken_ ∧
      ∀ dtor : R → Option Fault,
        destruct dtor w1 =
          match dtor r with
          | none => .ok { w1 with
              registration_ := none
              unregisterFn_calls := w.unregisterFn_calls ++ [r] }
          | some f => .error (f, { w1 with
              unregisterFn_calls := w.unregisterFn_calls ++ [r] }) := by
  have hlt : a < w.states.length := getElem?_lt_of_some _ _ _ hs
  refine ⟨_, dispatch_one w a st none hq hs hp, ?_, rfl, hr, rfl, rfl, ?_⟩
  · simp [recOf, hlt, List.getElem?_set, signalOf]
  · intro dtor
    cases hd : dtor r <;> simp [destruct, _unregister, hr, hd, stop_pending, dispatch]

/-- Witness for C11: the stop callback of the operation pending on the bridge `waiting`. -/
theorem operation_stop_keeps_registration_witness :
    ∃ w1, create_sender.state.stop_callback waiting = .ok w1 ∧
      recOf w1 0 = [] ++ [Signal.set_done] ∧
      w1.pendingOperations_ = [] ∧
      w1.registration_ = some 7 ∧
      w1.unregisterFn_calls = waiting.unregisterFn_calls ∧
      w1.rangeToken_ = waiting.rangeToken_ ∧
      ∀ dtor : Nat → Option Fault,
        destruct dtor w1 =
          match dtor 7 with
          | none => .ok { w1 with
              registration_ := none
              unregisterFn_calls := waiting.unregisterFn_calls ++ [7] }
          | some f => .error (f, { w1 with
              unregisterFn_calls := waiting.unregisterFn_calls ++ [7] }) :=
  operation_stop_keeps_registration waiting 0 ⟨[], false, armed 0⟩ 7 rfl rfl rfl rfl

/-! ## C12 -/

/-- C12, counterexample: in the process `hooked` (an instance was registered and started),
after `unregister_` has returned, a key-down notification delivered to
`KbdHookProc` calls the emitter of the instance. -/
theorem keydown_after_unregister_calls_emitter :
    _keyboard_hook.start (keyboard_events.register_ noHooks).1 0 (some 5) = .ok hooked ∧
    _keyboard_hook.KbdHookProc (keyboard_events.unregister_ hooked 0) 0 WM_KEYDOWN =
      ⟨some 0, [⟨some 5⟩], [(0, WM_KEYDOWN)]⟩ := by
  exact ⟨rfl, rfl⟩

/-- C12, amended: `unregister_` does nothing, so it is no fence: a key-down notification
with `nCode >= 0` delivered to `KbdHookProc` after `unregister_` has returned
calls the emitter of the instance in `self_` exactly as before. The fence is
`_keyboard_hook::destroy`: once it has returned normally `self_` is empty and no
notification delivered to `KbdHookProc` calls an emitter. -/
theorem destroy_is_the_fence (p : HookProcess) (r this : Nat) (nCode : Int) (wParam : Nat) :
    keyboard_events.unregister_ p r = p ∧
    (∀ self, p.self_ = some self → 0 ≤ nCode →
      wParam = WM_KEYDOWN ∨ wParam = WM_SYSKEYDOWN →
      (_keyboard_hook.KbdHookProc (keyboard_events.unregister_ p r) nCode wParam).fn_calls =
        p.fn_calls ++ [(self, wParam)]) ∧
    (∀ unhooked p1, _keyboard_hook.destroy p this unhooked = .ok p1 →
      p1.self_ = none ∧ _keyboard_hook.KbdHookProc p1 nCode wParam = p1) := by
  refine ⟨rfl, ?_, ?_⟩
  · intro self hself hn hk
    simp [_keyboard_hook.KbdHookProc, keyboard_events.unregister_, hself, hn, hk]
  · intro unhooked p1 h
    have hnone : p1.self_ = none := by
      unfold _keyboard_hook.destroy at h
      simp only at h
      split at h
      · cases h
      · split at h
        · cases h
          rfl
        · cases h
    exact ⟨hnone, by simp [_keyboard_hook.KbdHookProc, hnone]⟩

/-- Witness for C12 amended: in the process `hooked`, a key-down after `unregister_` calls
the emitter, and after a successful `destroy` it does not. -/
theorem destroy_is_the_fence_witness :
    (_keyboard_hook.KbdHookProc (keyboard_events.unregister_ hooked 0) 0 WM_KEYDOWN).fn_calls =
      hooked.fn_calls ++ [(0, WM_KEYDOWN)] ∧
    (⟨none, [⟨none⟩], []⟩ : HookProcess).self_ = none ∧
    _keyboard_hook.KbdHookProc ⟨none, [⟨none⟩], []⟩ 0 WM_KEYDOWN = ⟨none, [⟨none⟩], []⟩ :=
  ⟨(destroy_is_the_fence hooked 0 0 0 WM_KEYDOWN).2.1 0 rfl (by decide) (Or.inl rfl),
   (destroy_is_the_fence hooked 0 0 0 WM_KEYDOWN).2.2 true ⟨none, [⟨none⟩], []⟩ rfl⟩

/-! ## C13 -/

theorem clickety_eq {E : Type} (outcomes : List (Option E)) (c : Consumer) :
    clickety outcomes c =
      ⟨c.started + (outcomes.takeWhile Option.isSome).length + 1,
       c.clicks + (outcomes.takeWhile Option.isSome).length,
       c.returned || outcomes.any Option.isNone⟩ := by
  induction outcomes generalizing c with
  | nil => simp [clickety]
  | cons o rest ih =>
    cases o with
    | none => simp [clickety]
    | some e =>
      simp only [clickety, ih, List.takeWhile_cons, Option.isSome_some, if_true,
        List.length_cons, List.any_cons, Option.isNone_some, Bool.false_or]
      congr 1 <;> omega

/-- C13: run against any sequence of outcomes of the successive `next()` operations, the
loop `clickety` awaits one `next()` at a time and calls `player.Click()` once for
each value that comes before the first done, whatever comes after it. When the
values `vs` are followed by a done it has awaited `vs.length + 1` operations, none
after the done, and has returned; when no done has come yet it has not returned
and is suspended in the next `co_await`. -/
theorem clickety_clicks_until_cancelled {E : Type} (vs : List E) (rest : List (Option E))
    (outcomes : List (Option E)) :
    clickety (vs.map some ++ none :: rest) ⟨0, 0, false⟩ = ⟨vs.length + 1, vs.length, true⟩ ∧
    clickety (vs.map some) ⟨0, 0, false⟩ = ⟨vs.length + 1, vs.length, false⟩ ∧
    (clickety outcomes ⟨0, 0, false⟩).clicks = (outcomes.takeWhile Option.isSome).length ∧
    (clickety outcomes ⟨0, 0, false⟩).started =
      (outcomes.takeWhile Option.isSome).length + 1 ∧
    (clickety outcomes ⟨0, 0, false⟩).returned = outcomes.any Option.isNone := by
  have htw : ∀ tail : List (Option E),
      ((vs.map some ++ tail).takeWhile Option.isSome).length =
        vs.length + (tail.takeWhile Option.isSome).length := by
    intro tail
    induction vs with
    | nil => simp
    | cons v vs ih =>
      simp only [List.map_cons, List.cons_append, List.takeWhile_cons, Option.isSome_some,
        if_true, List.length_cons, ih]
      omega
  refine ⟨?_, ?_, ?_, ?_, ?_⟩
  · rw [clickety_eq, htw]
    simp
  · have := htw []
    simp only [List.append_nil] at this
    rw [clickety_eq, this]
    simp
  · simp [clickety_eq]
  · simp [clickety_eq]
  · simp [clickety_eq]

/-! ## C14 -/

theorem hook_start_ok (p p1 : HookProcess) (this : Nat) (hook : Option Nat)
    (h : _keyboard_hook.start p this hook = .ok p1) : p.self_ = none ∧ p1.self_ = some this := by
  unfold _keyboard_hook.start at h
  split at h
  · cases h
  · rename_i hs
    simp only at h
    split at h
    · cases h
    · cases h
      exact ⟨by simpa using hs, rfl⟩

theorem hook_destroy_ok (p p1 : HookProcess) (this : Nat) (unhooked : Bool)
    (h : _keyboard_hook.destroy p this unhooked = .ok p1) :
    p.self_ = some this ∧ p1.self_ = none := by
  unfold _keyboard_hook.destroy at h
  simp only at h
  split at h
  · cases h
  · split at h
    · rename_i hs
      cases h
      exact ⟨hs, rfl⟩
    · cases h

theorem stop_start_ok (q q1 : StopProcess) (this : Nat) (handlerSet : Bool)
    (h : clean_stop.start q this handlerSet = .ok q1) : q.stop_ = none ∧ q1.stop_ = some this := by
  unfold clean_stop.start at h
  simp only at h
  split at h
  · cases h
  · rename_i hs
    split at h
    · cases h
    · cases h
      exact ⟨by simpa using hs, rfl⟩

theorem stop_destroy_ok (q q1 : StopProcess) (handlerCleared : Bool)
    (h : clean_stop.destroy q handlerCleared = .ok q1) :
    q.stop_.isSome = true ∧ q1.stop_ = none := by
  unfold clean_stop.destroy at h
  split at h
  · cases h
  · simp only at h
    split at h
    · cases h
    · rename_i hs
      cases h
      refine ⟨?_, rfl⟩
      cases hq : q.stop_ with
      | none => simp [hq] at hs
      | some x => rfl

theorem runHookOps_alternates (ops : List HookOp) (p p1 : HookProcess)
    (h : runHookOps ops p = .ok p1) :
    alternates p.self_.isSome (ops.map HookOp.isStart) = true ∧ matched p.self_ ops = true := by
  induction ops generalizing p with
  | nil => exact ⟨rfl, rfl⟩
  | cons op rest ih =>
    cases op with
    | start this hook =>
      simp only [runHookOps] at h
      split at h
      · cases h
      · rename_i p2 h2
        obtain ⟨h0, h1⟩ := hook_start_ok p p2 this hook h2
        obtain ⟨ia, im⟩ := ih p2 h
        rw [h1] at ia im
        simp only [Option.isSome_some] at ia
        simp [alternates, matched, HookOp.isStart, h0, ia, im]
    | destroy this unhooked =>
      simp only [runHookOps] at h
      split at h
      · cases h
      · rename_i p2 h2
        obtain ⟨h0, h1⟩ := hook_destroy_ok p p2 this unhooked h2
        obtain ⟨ia, im⟩ := ih p2 h
        rw [h1] at ia im
        simp only [Option.isSome_none] at ia
        simp [alternates, matched, HookOp.isStart, h0, ia, im]

theorem runStopOps_alternates (ops : List StopOp) (q q1 : StopProcess)
    (h : runStopOps ops q = .ok q1) :
    alternates q.stop_.isSome (ops.map StopOp.isStart) = true := by
  induction ops generalizing q with
  | nil => rfl
  | cons op rest ih =>
    cases op with
    | start this handlerSet =>
      simp only [runStopOps] at h
      split at h
      · cases h
      · rename_i q2 h2
        obtain ⟨h0, h1⟩ := stop_start_ok q q2 this handlerSet h2
        have ia := ih q2 h
        rw [h1] at ia
        simp only [Option.isSome_some] at ia
        simp [alternates, StopOp.isStart, h0, ia]
    | destroy handlerCleared =>
      simp only [runStopOps] at h
      split at h
      · cases h
      · rename_i q2 h2
        obtain ⟨h0, h1⟩ := stop_destroy_ok q q2 handlerCleared h2
        have ia := ih q2 h
        rw [h1] at ia
        simp only [Option.isSome_none] at ia
        simp [alternates, StopOp.isStart, h0, ia]

/-- C14: `_keyboard_hook::start` ends in `std::terminate` with the process untouched when
`self_` is occupied, and otherwise puts the instance into `self_` (and returns
normally when `SetWindowsHookExW` gave a hook). `_keyboard_hook::destroy` ends in
`std::terminate` with `self_` untouched when `self_` does not hold the instance,
and otherwise, when `UnhookWindowsHookEx` succeeded, empties `self_` and returns
normally. `clean_stop::start` ends in `std::terminate` when `stop_` is occupied
and otherwise fills it; `clean_stop::destroy` ends in `std::terminate` when
`stop_` is empty and otherwise, when the handler was removed, empties it. So in
every sequence of calls that runs without fault, starts and destroys on the slot
strictly alternate, and on `self_` each destroy is made by the instance that
started. -/
theorem slot_start_destroy_discipline (p : HookProcess) (q : StopProcess) (this : Nat)
    (hook : Option Nat) (answer : Bool) (hops : List HookOp) (sops : List StopOp) :
    (p.self_.isSome = true →
      _keyboard_hook.start p this hook = .error (Fault.terminate, p)) ∧
    (p.self_ = none →
      _keyboard_hook.start p this hook =
        if hook.isSome then
          .ok { p with self_ := some this, hooks := p.hooks.set this ⟨hook⟩ }
        else
          .error (Fault.terminate,
            { p with self_ := some this, hooks := p.hooks.set this ⟨hook⟩ })) ∧
    (p.self_ ≠ some this →
      _keyboard_hook.destroy p this answer =
        .error (Fault.terminate, { p with hooks := p.hooks.set this ⟨none⟩ })) ∧
    (p.self_ = some this →
      _keyboard_hook.destroy p this answer =
        if answer then .ok { p with self_ := none, hooks := p.hooks.set this ⟨none⟩ }
        else .error (Fault.terminate, { p with hooks := p.hooks.set this ⟨none⟩ })) ∧
    (q.stop_.isSome = true →
      clean_stop.start q this answer = .error (Fault.terminate, ⟨some this⟩)) ∧
    (q.stop_ = none →
      clean_stop.start q this answer =
        if answer then .ok ⟨some this⟩ else .error (Fault.terminate, ⟨some this⟩)) ∧
    (q.stop_ = none →
      clean_stop.destroy q answer =
        .error (Fault.terminate, if answer then ⟨none⟩ else q)) ∧
    (q.stop_.isSome = true →
      clean_stop.destroy q answer =
        if answer then .ok ⟨none⟩ else .error (Fault.terminate, q)) ∧
    (∀ p1, runHookOps hops p = .ok p1 →
      alternates p.self_.isSome (hops.map HookOp.isStart) = true ∧
      matched p.self_ hops = true) ∧
    (∀ q1, runStopOps sops q = .ok q1 →
      alternates q.stop_.isSome (sops.map StopOp.isStart) = true) := by
  refine ⟨?_, ?_, ?_, ?_, ?_, ?_, ?_, ?_, fun p1 h => runHookOps_alternates hops p p1 h,
    fun q1 h => runStopOps_alternates sops q q1 h⟩
  · intro h
    simp [_keyboard_hook.start, h]
  · intro h
    cases hook <;> simp [_keyboard_hook.start, h]
  · intro h
    cases answer <;> simp [_keyboard_hook.destroy, h]
  · intro h
    cases answer <;> simp [_keyboard_hook.destroy, h]
  · intro h
    simp [clean_stop.start, h]
  · intro h
    cases answer <;> simp [clean_stop.start, h]
  · intro h
    cases answer <;> simp [clean_stop.destroy, h]
  · intro h
    have hn : q.stop_.isNone = false := by
      cases hq : q.stop_ with
      | none => simp [hq] at h
      | some x => rfl
    cases answer <;> simp [clean_stop.destroy, hn]

/-- Witness for C14: the calls `hookOps` on the process `twoHooks` and the calls `stopOps`
on an empty slot `stop_` run without fault and alternate; a second start on the
occupied slot of `hooked` ends in `std::terminate`. -/
theorem slot_start_destroy_discipline_witness :
    runHookOps hookOps twoHooks = .ok ⟨some 1, [⟨none⟩, ⟨some 6⟩], []⟩ ∧
    runStopOps stopOps ⟨none⟩ = .ok ⟨some 1⟩ ∧
    (alternates twoHooks.self_.isSome (hookOps.map HookOp.isStart) = true ∧
      matched twoHooks.self_ hookOps = true) ∧
    alternates (⟨none⟩ : StopProcess).stop_.isSome (stopOps.map StopOp.isStart) = true ∧
    _keyboard_hook.start hooked 1 (some 6) = .error (Fault.terminate, hooked) :=
  ⟨rfl, rfl,
   (slot_start_destroy_discipline twoHooks ⟨none⟩ 0 none true hookOps stopOps).2.2.2.2.2.2.2.2.1
     _ rfl,
   (slot_start_destroy_discipline twoHooks ⟨none⟩ 0 none true hookOps stopOps).2.2.2.2.2.2.2.2.2
     _ rfl,
   (slot_start_destroy_discipline hooked ⟨none⟩ 1 (some 6) true [] []).1 rfl⟩

/-! ## C15 -/

/-- C15, the code at the failing inputs: on the object the constructor gives,
`request_stop()` empties `registration_`, and `destroy()` or `start()` called
afterwards dereference the empty optional; when the hook was started,
`request_stop()` itself ends in `std::terminate` inside `~_keyboard_hook`, which
`registration_.reset()` runs while `hHook_` is still set. -/
theorem destroy_after_request_stop_finds_no_registration :
    keyboard_hook.construct noHooks = .ok freshKeyboard ∧
    keyboard_hook.request_stop freshKeyboard =
      .ok ⟨⟨true, none, [], [], [0], 1⟩, ⟨none, [⟨none⟩], []⟩⟩ ∧
    keyboard_hook.andThen (keyboard_hook.request_stop freshKeyboard)
        (fun k => keyboard_hook.destroy k true) =
      .error (Fault.empty_optional, ⟨⟨true, none, [], [], [0], 1⟩, ⟨none, [⟨none⟩], []⟩⟩) ∧
    keyboard_hook.andThen (keyboard_hook.request_stop freshKeyboard)
        (fun k => keyboard_hook.start k (some 5)) =
      .error (Fault.empty_optional, ⟨⟨true, none, [], [], [0], 1⟩, ⟨none, [⟨none⟩], []⟩⟩) ∧
    keyboard_hook.andThen (keyboard_hook.start freshKeyboard (some 5))
        keyboard_hook.request_stop =
      .error (Fault.terminate,
        ⟨⟨true, some 0, [], [], [0], 1⟩, ⟨some 0, [⟨some 5⟩], []⟩⟩) := by
  exact ⟨rfl, rfl, rfl, rfl, rfl⟩

/-! ## C16 -/

theorem keyboard_unregister_eq (k : keyboard_hook) :
    keyboard_hook._unregister k =
      k.withRange (_unregister (hookDestructor k.process) k.range_) := by
  unfold keyboard_hook._unregister _unregister hookDestructor
  cases hr : k.range_.registration_ with
  | none => simp [keyboard_hook.withRange]
  | some r =>
    simp only [keyboard_events.unregister_, _keyboard_hook.destruct]
    cases hh : k.process.hooks[r]? with
    | none => simp [keyboard_hook.withRange, hr]
    | some h =>
      cases hk : h.hHook_.isSome <;> simp [keyboard_hook.withRange, hk, hr]

theorem keyboard_request_stop_eq (k : keyboard_hook) :
    keyboard_hook.request_stop k =
      k.withRange (request_stop (hookDestructor k.process) k.range_) := by
  unfold keyboard_hook.request_stop request_stop stop_callback
  cases hrt : k.range_.rangeToken_ with
  | true => simp [keyboard_hook.withRange]
  | false =>
    simp only [Bool.false_eq_true, if_false]
    rw [keyboard_unregister_eq]
    cases h : _unregister (hookDestructor k.process) { k.range_ with rangeToken_ := true } with
    | ok w => simp [keyboard_hook.withRange, h]
    | error x => 
      obtain ⟨f, w⟩ := x
      simp [keyboard_hook.withRange, h]

/-! ## C5 -/

theorem dispatch_as_thread {E R : Type} (w : sender_range E R) (ev : Option E) :
    (match DispatchThread.step w (DispatchThread.entered ev) with
      | .ok (w1, t) => DispatchThread.step w1 t
      | .error x => .error x) =
    (match dispatch w ev with
      | .ok w2 => .ok (w2, DispatchThread.returned)
      | .error x => .error x) := by
  cases hq : w.pendingOperations_ with
  | nil => simp [DispatchThread.step, dispatch, hq]
  | cons a rest =>
    cases rest with
    | nil => simp [DispatchThread.step, dispatch, hq]
    | cons b more => simp [DispatchThread.step, dispatch, hq]

end SenderRange
